import Mathlib

/-!
Verification of the Ex certificate text parser (the `ExParser` module of this
repository: `parse` and `confidence`).  The JavaScript regular expressions are
embedded as backtracking matchers over `List Char`: a matcher returns the list
of possible (value, rest) outcomes in the preference order of a backtracking
regex engine, and scanning tries successive start positions left to right, so
the head outcome at the first successful position is the match the engine
reports.
-/

namespace ExParser

/-- JavaScript `\s` (whitespace) character class, by code point. -/
def isWs (c : Char) : Bool :=
  let n := c.toNat
  n == 32 || n == 9 || n == 10 || n == 13 || n == 11 || n == 12 ||
  n == 0xa0 || n == 0x1680 || (0x2000 ≤ n && n ≤ 0x200a) ||
  n == 0x2028 || n == 0x2029 || n == 0x202f || n == 0x205f ||
  n == 0x3000 || n == 0xfeff

/-- JavaScript `\d`. -/
def isDigitC (c : Char) : Bool := 48 ≤ c.toNat && c.toNat ≤ 57

/-- ASCII letter (what `[A-Z]` matches under the `i` flag). -/
def isLetterC (c : Char) : Bool :=
  (65 ≤ c.toNat && c.toNat ≤ 90) || (97 ≤ c.toNat && c.toNat ≤ 122)

/-- ASCII upper-case letter (case-sensitive `[A-Z]`). -/
def isUpperC (c : Char) : Bool := 65 ≤ c.toNat && c.toNat ≤ 90

/-- JavaScript `\w`. -/
def isWordC (c : Char) : Bool := isLetterC c || isDigitC c || c.toNat == 95

/-- ASCII lower-casing, as used for case-insensitive matching. -/
def asciiLower (c : Char) : Char :=
  if 65 ≤ c.toNat ∧ c.toNat ≤ 90 then Char.ofNat (c.toNat + 32) else c

/-- Case-insensitive character comparison. -/
def eqI (c d : Char) : Bool := asciiLower c == asciiLower d

/-- Characters matched by `.` (anything but a line terminator). -/
def isDotC (c : Char) : Bool :=
  !(c == '\n' || c == '\r' || c.toNat == 0x2028 || c.toNat == 0x2029)

/-- A backtracking matcher: all (value, rest) outcomes at the current
position, in engine preference order. -/
abbrev P (α : Type) : Type := List Char → List (α × List Char)

/-- Empty pattern: consumes nothing. -/
def peps : P (List Char) := fun s => [([], s)]

/-- Sequencing; outcomes of `p` are explored outermost (regex order). -/
def pseq (p : P α) (q : P β) : P (α × β) := fun s =>
  (p s).flatMap fun ar => (q ar.2).map fun br => ((ar.1, br.1), br.2)

def pmap (f : α → β) (p : P α) : P β := fun s =>
  (p s).map fun ar => (f ar.1, ar.2)

/-- Alternation, left preferred. -/
def palt (p q : P α) : P α := fun s => p s ++ q s

/-- Sequencing of two consumed-text matchers, concatenating the text. -/
def pcat (p q : P (List Char)) : P (List Char) :=
  pmap (fun x => x.1 ++ x.2) (pseq p q)

/-- Sequencing that keeps only the right value (left part still consumes). -/
def pThen (p : P α) (q : P β) : P β := pmap Prod.snd (pseq p q)

/-- Sequencing that keeps only the left value. -/
def pBefore (p : P α) (q : P β) : P α := pmap Prod.fst (pseq p q)

/-- Single character from a class. -/
def pch (f : Char → Bool) : P (List Char) := fun s =>
  match s with
  | [] => []
  | c :: r => if f c then [([c], r)] else []

/-- Case-insensitive literal character. -/
def pchI (c : Char) : P (List Char) := pch (fun x => eqI x c)

def pstrAux : List Char → P (List Char)
  | [] => peps
  | c :: cs => pcat (pch (· == c)) (pstrAux cs)

/-- Exact literal string. -/
def pstr (w : String) : P (List Char) := pstrAux w.data

def pstrIAux : List Char → P (List Char)
  | [] => peps
  | c :: cs => pcat (pchI c) (pstrIAux cs)

/-- Case-insensitive literal string. -/
def pstrI (w : String) : P (List Char) := pstrIAux w.data

/-- Greedy `X{lo,hi}` for a character class `X`: splits from longest to
shortest, as a backtracking engine prefers. -/
def pRep (f : Char → Bool) (lo hi : Nat) : P (List Char) := fun s =>
  let run := min (s.takeWhile f).length hi
  (List.range (run + 1 - lo)).map fun i => (s.take (run - i), s.drop (run - i))

/-- Greedy `X{lo,}` for a character class (unbounded). -/
def pRepGE (f : Char → Bool) (lo : Nat) : P (List Char) := fun s =>
  let run := (s.takeWhile f).length
  (List.range (run + 1 - lo)).map fun i => (s.take (run - i), s.drop (run - i))

/-- Lazy `X{lo,hi}?` for a character class: shortest splits first. -/
def pRepLazy (f : Char → Bool) (lo hi : Nat) : P (List Char) := fun s =>
  let run := min (s.takeWhile f).length hi
  (List.range (run + 1 - lo)).map fun i => (s.take (lo + i), s.drop (lo + i))

/-- `\s+` -/
def pWs1 : P (List Char) := pRepGE isWs 1

/-- `\s*` -/
def pWs0 : P (List Char) := pRepGE isWs 0

/-- Greedy option `(?:X)?`. -/
def popt (p : P (List Char)) : P (List Char) := fun s => p s ++ [([], s)]

/-- Fuelled greedy star over a group; an iteration that consumes nothing
ends the loop (as in a regex engine). -/
def pstarG (p : P (List Char)) : Nat → P (List Char)
  | 0 => fun s => [([], s)]
  | n + 1 => fun s =>
    ((p s).flatMap fun vr =>
      if vr.1.isEmpty then []
      else (pstarG p n vr.2).map fun wr => (vr.1 ++ wr.1, wr.2)) ++ [([], s)]

/-- Greedy `(?:...)*` over a group. -/
def pStarGrp (p : P (List Char)) : P (List Char) := fun s => pstarG p s.length s

/-- Greedy `(?:...)+` over a group. -/
def pPlusGrp (p : P (List Char)) : P (List Char) := pcat p (pStarGrp p)

/-- Positive lookahead `(?=X)`. -/
def plook (p : P α) : P (List Char) := fun s =>
  match p s with
  | [] => []
  | _ => [([], s)]

/-- Negative lookahead `(?!X)`. -/
def pnla (p : P α) : P (List Char) := fun s =>
  match p s with
  | [] => [([], s)]
  | _ => []

/-- `$` with no `m` flag: end of input. -/
def pEnd : P (List Char) := fun s =>
  match s with
  | [] => [([], s)]
  | _ => []

/-- Word-boundary check after a word character: next char is not a word
character (or input ends). -/
def pEow : P (List Char) := fun s =>
  match s with
  | [] => [([], s)]
  | c :: _ => if isWordC c then [] else [([], s)]

def prevIsWord : Option Char → Bool
  | some c => isWordC c
  | none => false

/-- Leftmost match: try each start position; `anch` demands a `\b` before the
match (all anchored patterns here begin with a word character).  Returns
(value, consumed text, rest). -/
def scanFrom (p : P α) (anch : Bool) :
    Option Char → List Char → Option (α × List Char × List Char)
  | prev, s =>
    match
      (if anch && prevIsWord prev then none
       else
         match (p s).head? with
         | some (a, r) => some (a, s.take (s.length - r.length), r)
         | none => none : Option (α × List Char × List Char))
    with
    | some x => some x
    | none =>
      match s with
      | [] => none
      | c :: rest => scanFrom p anch (some c) rest

/-- All matches of a `g`-flagged pattern, left to right, non-overlapping. -/
def scanAllF (p : P α) (anch : Bool) : Nat → Option Char → List Char → List α
  | 0, _, _ => []
  | fuel + 1, prev, s =>
    match scanFrom p anch prev s with
    | none => []
    | some (a, consumed, r) =>
      if consumed.isEmpty then
        a :: (match r with
          | [] => []
          | c :: r2 => scanAllF p anch fuel (some c) r2)
      else a :: scanAllF p anch fuel (some (consumed.getLastD ' ')) r

def scanAll (p : P α) (anch : Bool) (s : List Char) : List α :=
  scanAllF p anch (s.length + 1) none s

/-- First match of a non-`g` pattern over a whole subject. -/
def scan1 (p : P α) (anch : Bool) (s : List Char) : Option α :=
  (scanFrom p anch none s).map (·.1)

/-! ### String helpers mirroring the JavaScript string methods used -/

theorem dropWhile_len_le (f : α → Bool) (l : List α) :
    (l.dropWhile f).length ≤ l.length := by
  induction l with
  | nil => simp
  | cons c r ih =>
    by_cases h : f c = true
    · simpa [List.dropWhile, h] using Nat.le_succ_of_le ih
    · simp [List.dropWhile, h]

theorem filter_len_le (f : α → Bool) (l : List α) :
    (l.filter f).length ≤ l.length := by
  induction l with
  | nil => simp
  | cons c r ih =>
    by_cases h : f c = true
    · simpa [List.filter, h] using ih
    · simpa [List.filter, h] using Nat.le_succ_of_le ih

theorem takeWhile_len_le (f : α → Bool) (l : List α) :
    (l.takeWhile f).length ≤ l.length := by
  induction l with
  | nil => simp
  | cons c r ih =>
    by_cases h : f c = true
    · simpa [List.takeWhile, h] using ih
    · simp [List.takeWhile, h]

def dropRWhile (f : Char → Bool) (l : List Char) : List Char :=
  (l.reverse.dropWhile f).reverse

/-- `String.prototype.trim`. -/
def trimWs (l : List Char) : List Char := dropRWhile isWs (l.dropWhile isWs)

/-- `.replace(/[,\s]+$/, '')`. -/
def dropTrailCommaWs (l : List Char) : List Char :=
  dropRWhile (fun c => c == ',' || isWs c) l

def collapseWsF : Nat → List Char → List Char
  | 0, _ => []
  | _, [] => []
  | n + 1, c :: r =>
    if isWs c then ' ' :: collapseWsF n (r.dropWhile isWs)
    else c :: collapseWsF n r

/-- `.replace(/\s+/g, ' ')`: collapse every whitespace run to one space
(the fuel, the input length, always suffices). -/
def collapseWs (l : List Char) : List Char := collapseWsF l.length l

/-- `.replace(/\s+/g, '')`. -/
def stripWs (l : List Char) : List Char := l.filter (fun c => !isWs c)

def wordsWsAux : List Char → List Char → List (List Char)
  | acc, [] => if acc.isEmpty then [] else [acc.reverse]
  | acc, c :: r =>
    if isWs c then
      if acc.isEmpty then wordsWsAux [] r else acc.reverse :: wordsWsAux [] r
    else wordsWsAux (c :: acc) r

/-- `.split(/\s+/)` on an already-trimmed subject: whitespace-separated
words (the source always splits a trimmed string, and an empty piece would
be discarded by the valid-code filter anyway). -/
def wordsWs (l : List Char) : List (List Char) := wordsWsAux [] l

def dedupStrF : Nat → List String → List String
  | 0, _ => []
  | _ + 1, [] => []
  | n + 1, x :: xs => x :: dedupStrF n (xs.filter (· != x))

/-- First-occurrence deduplication (`new Set` preserving insertion order). -/
def dedupStr (l : List String) : List String := dedupStrF l.length l

/-- Stable insertion, descending string length (ties keep original order). -/
def insDesc (x : String) : List String → List String
  | [] => [x]
  | y :: ys => if y.length ≤ x.length then x :: y :: ys else y :: insDesc x ys

/-- Stable sort by descending string length: the unique output of
`.sort((a, b) => b.length - a.length)` on a stable sort. -/
def sortDesc : List String → List String
  | [] => []
  | x :: xs => insDesc x (sortDesc xs)

/-- `Array.prototype.join(sep)`. -/
def joinSep (sep : String) : List String → String
  | [] => ""
  | [x] => x
  | x :: y :: r => x ++ sep ++ joinSep sep (y :: r)

/-- `String.prototype.includes`. -/
def containsStr : List Char → List Char → Bool
  | t, sub =>
    sub.isPrefixOf t ||
      (match t with
       | [] => false
       | _ :: r => containsStr r sub)

/-! ### Domain knowledge tables (module-level constants of the source) -/

def CERT_BODIES : List String :=
  ["BASEEFA", "SIRA", "DEKRA", "PTB", "INERIS", "CESI", "LCIE",
   "UL", "FM", "CSA Group", "CSA", "TÜV", "TUV", "SGS", "ZELM", "FTZU",
   "NEMKO", "DEMKO", "KEMA", "BVS", "IBExU", "CERCHAR",
   "SIMTARS", "MSHA", "ITS", "Intertek", "Bureau Veritas",
   "CML", "Eurofins", "Presafe", "Fiditas", "FIDITAS",
   "ExVeritas", "SGS-CSTC", "CQM", "PCEC", "NEPSI", "TIIS",
   "KOSHA", "KTL", "PESO", "CCOE", "DNV GL", "DNV",
   "EXAM", "Element", "TestSafe",
   "Physikalisch-Technische Bundesanstalt"]

def PROTECTION_TYPES : List (String × String) :=
  [("d", "Flameproof enclosure"),
   ("e", "Increased safety"),
   ("i", "Intrinsic safety"),
   ("p", "Pressurized enclosure"),
   ("o", "Oil immersion"),
   ("q", "Powder/sand filling"),
   ("n", "Non-sparking"),
   ("m", "Encapsulation"),
   ("t", "Protection by enclosure"),
   ("s", "Special protection"),
   ("op", "Optical radiation"),
   ("h", "Non-incendive")]

def GAS_GROUP_INFO : List (String × String) :=
  [("IIC", "Hydrogen, acetylene (most stringent)"),
   ("IIB", "Ethylene"),
   ("IIA", "Propane (least stringent)"),
   ("I", "Mining (methane)"),
   ("IIIA", "Combustible flyings"),
   ("IIIB", "Non-conductive dust"),
   ("IIIC", "Conductive dust (most stringent)")]

def TEMP_CLASS_INFO : List (String × String) :=
  [("T1", "450°C"), ("T2", "300°C"), ("T3", "200°C"),
   ("T4", "135°C"), ("T5", "100°C"), ("T6", "85°C")]

def VALID_PROT_CODES : List String :=
  ["d", "da", "db", "dc", "e", "ea", "eb", "ec", "i", "ia", "ib", "ic",
   "p", "pa", "pb", "pc", "px", "py", "pz", "o", "ob", "oc", "q", "qa", "qb",
   "n", "na", "nc", "nr", "nl", "m", "ma", "mb", "mc",
   "t", "ta", "tb", "tc", "s", "h", "op"]

def lookupT (tbl : List (String × String)) (k : String) : Option String :=
  (tbl.find? (fun kv => kv.1 == k)).map (·.2)

/-! ### The regular expressions of `parse`, one matcher per regex literal -/

/-- Lazy `X{lo,}?` for a character class. -/
def pRepLazyGE (f : Char → Bool) (lo : Nat) : P (List Char) := fun s =>
  let run := (s.takeWhile f).length
  (List.range (run + 1 - lo)).map fun i => (s.take (lo + i), s.drop (lo + i))

/-- Anchored test (`RegExp.test` with a `^...` pattern). -/
def testHead (p : P α) (s : List Char) : Bool := !(p s).isEmpty

/-- Anchored first match value (`^...` pattern). -/
def matchHead (p : P α) (s : List Char) : Option α := ((p s).head?).map (·.1)

/-- `IECEx\s+[A-Z]{2,5}\s+\d{2}\.\d{3,5}[A-Z]?(?:\/\d+\.\d+)?` with `i`. -/
def iecexP : P (List Char) :=
  pcat (pstrI "IECEx") (pcat pWs1 (pcat (pRep isLetterC 2 5) (pcat pWs1
    (pcat (pRep isDigitC 2 2) (pcat (pstr ".") (pcat (pRep isDigitC 3 5)
      (pcat (popt (pch isLetterC))
        (popt (pcat (pstr "/") (pcat (pRepGE isDigitC 1)
          (pcat (pstr ".") (pRepGE isDigitC 1))))))))))))

/-- `[A-Z]{2,10}\s*\d{2}\s*ATEX\s*\d{3,5}\s*[XU]?(?:\s*\/\s*V?\d[\w]*)?`
with `i`. -/
def atexP : P (List Char) :=
  pcat (pRep isLetterC 2 10) (pcat pWs0 (pcat (pRep isDigitC 2 2) (pcat pWs0
    (pcat (pstrI "ATEX") (pcat pWs0 (pcat (pRep isDigitC 3 5) (pcat pWs0
      (pcat (popt (pch (fun c => eqI c 'X' || eqI c 'U')))
        (popt (pcat pWs0 (pcat (pstr "/") (pcat pWs0 (pcat (popt (pchI 'V'))
          (pcat (pch isDigitC) (pRepGE isWordC 0)))))))))))))))

/-- `UKCA\s+[A-Z0-9\-.\/]+` with `i`. -/
def ukcaP : P (List Char) :=
  pcat (pstrI "UKCA") (pcat pWs1
    (pRepGE (fun c => isLetterC c || isDigitC c || c == '-' || c == '.' || c == '/') 1))

/-- `\d{2}\s*ATEX\s*\d{3,5}` with `i` (dual-certification probe). -/
def atexAlsoP : P (List Char) :=
  pcat (pRep isDigitC 2 2) (pcat pWs0 (pcat (pstrI "ATEX") (pcat pWs0 (pRep isDigitC 3 5))))

/-- `[deimopqstnabrh]` under the `i` flag. -/
def mkCls (c : Char) : Bool := "deimopqstnabrh".data.contains (asciiLower c)

/-- `(?:[deimopqstnabrh]{1,4}\s+)+` -/
def mkClsRun : P (List Char) := pPlusGrp (pcat (pRep mkCls 1 4) pWs1)

/-- `(?:\[[a-z]{1,4}\]\s+)?` under `i`. -/
def brkOpt : P (List Char) :=
  popt (pcat (pstr "[") (pcat (pRep isLetterC 1 4) (pcat (pstr "]") pWs1)))

def iRun (lo hi : Nat) : P (List Char) := pRep (fun c => eqI c 'I') lo hi

/-- `[ABC]*` under `i`. -/
def abcStar : P (List Char) := pRepGE (fun c => "abc".data.contains (asciiLower c)) 0

def h2Opt : P (List Char) := popt (pstrI "+H2")

/-- `T[1-6]` under `i`. -/
def tC : P (List Char) := pcat (pchI 'T') (pch (fun c => '1' ≤ c && c ≤ '6'))

/-- `(?:\/T[1-6])*` -/
def tSlashes : P (List Char) := pStarGrp (pcat (pstr "/") tC)

/-- `[GDM][abc]` under `i`. -/
def eplTok : P (List Char) :=
  pcat (pch (fun c => "gdm".data.contains (asciiLower c)))
    (pch (fun c => "abc".data.contains (asciiLower c)))

/-- `(?:\/[GDM][abc])*` -/
def eplSlashes : P (List Char) := pStarGrp (pcat (pstr "/") eplTok)

/-- Marking shape 1 (full, with temperature class and EPL). -/
def markingP1 : P (List Char) :=
  pcat (pstrI "Ex") (pcat pWs1 (pcat mkClsRun (pcat brkOpt (pcat (iRun 1 3)
    (pcat abcStar (pcat h2Opt (pcat pWs1 (pcat tC (pcat tSlashes
      (pcat pWs0 (pcat eplTok eplSlashes)))))))))))

/-- Marking shape 2 (mining: `Ex ... I M[ab]`). -/
def markingP2 : P (List Char) :=
  pcat (pstrI "Ex") (pcat pWs1 (pcat mkClsRun (pcat (pchI 'I') (pcat pWs1
    (pcat (pchI 'M') (pch (fun c => "ab".data.contains (asciiLower c))))))))

/-- Marking shape 3 (dust, absolute temperature). -/
def markingP3 : P (List Char) :=
  pcat (pstrI "Ex") (pcat pWs1 (pcat mkClsRun (pcat (iRun 2 3) (pcat abcStar
    (pcat pWs1 (pcat (pchI 'T') (pcat (pRepGE isDigitC 1) (pcat (popt (pstr "°"))
      (pcat pWs0 (pcat (pchI 'C') (pcat pWs0 eplTok)))))))))))

/-- Marking shape 4 (temperature class, no EPL). -/
def markingP4 : P (List Char) :=
  pcat (pstrI "Ex") (pcat pWs1 (pcat mkClsRun (pcat brkOpt (pcat (iRun 1 3)
    (pcat abcStar (pcat h2Opt (pcat pWs1 (pcat tC tSlashes))))))))

/-- Marking shape 5 (minimal: codes + gas group). -/
def markingP5 : P (List Char) :=
  pcat (pstrI "Ex") (pcat pWs1 (pcat mkClsRun (pcat (iRun 1 3) abcStar)))

def markingPats : List (P (List Char)) :=
  [markingP1, markingP2, markingP3, markingP4, markingP5]

/-- `^Ex\s+(.*?)(?:\[.*?\]\s*)?(?=I{1,3})` with `i`; value is the capture. -/
def protP : P (List Char) :=
  pThen (pstrI "Ex") (pThen pWs1 (pBefore (pRepLazyGE isDotC 0)
    (pThen (popt (pcat (pstr "[") (pcat (pRepLazyGE isDotC 0) (pcat (pstr "]") pWs0))))
      (plook (pRep (fun c => eqI c 'I') 1 3)))))

/-- `III[ABC]` (case-sensitive). -/
def gasB1 : P (List Char) := pcat (pstr "III") (pch (fun c => "ABC".data.contains c))

/-- `II[ABC](?:\+H2)?` (case-sensitive). -/
def gasB2 : P (List Char) :=
  pcat (pstr "II") (pcat (pch (fun c => "ABC".data.contains c)) (popt (pstr "+H2")))

/-- `Group\s+I(?:I[ABC]?)?` (case-sensitive). -/
def gasB3 : P (List Char) :=
  pcat (pstr "Group") (pcat pWs1 (pcat (pstr "I")
    (popt (pcat (pstr "I") (popt (pch (fun c => "ABC".data.contains c)))))))

/-- `\b(III[ABC]|II[ABC](?:\+H2)?)\b` (marking-scoped gas group). -/
def gasMarkP : P (List Char) := pBefore (palt gasB1 gasB2) pEow

/-- `\b(III[ABC]|II[ABC](?:\+H2)?|Group\s+I(?:I[ABC]?)?)\b` -/
def gasTextP : P (List Char) := pBefore (palt gasB1 (palt gasB2 gasB3)) pEow

/-- `\bT([1-6])\b` (case-sensitive); value is the digit. -/
def tempP : P (List Char) :=
  pThen (pch (· == 'T')) (pBefore (pch (fun c => '1' ≤ c && c ≤ '6')) pEow)

/-- `\b([GDM][abc])\b` (case-sensitive). -/
def eplP : P (List Char) :=
  pBefore (pcat (pch (fun c => "GDM".data.contains c))
    (pch (fun c => "abc".data.contains c))) pEow

/-- `Zone\s+(\d{1,2})` with `i`; value is the digit capture. -/
def zoneP : P (List Char) := pThen (pstrI "Zone") (pThen pWs1 (pRep isDigitC 1 2))

/-- `\bIP\s*([0-9X]{2}[A-Z]?)\b` with `i`; value is the capture. -/
def ipP : P (List Char) :=
  pThen (pstrI "IP") (pThen pWs0
    (pBefore (pcat (pRep (fun c => isDigitC c || eqI c 'X') 2 2)
      (popt (pch isLetterC))) pEow))

/-- `(to|\.{2,3}|–|—|-)` -/
def ambSep : P (List Char) :=
  palt (pstrI "to") (palt (pRep (· == '.') 2 3)
    (palt (pstr "–") (palt (pstr "—") (pstr "-"))))

/-- `(-\d+)\s*°?\s*C?\s*(to|\.{2,3}|–|—|-)\s*\+?(\d+)\s*°?\s*C` with `i`;
value is (capture 1, capture 3). -/
def ambP : P (List Char × List Char) :=
  pseq
    (pBefore (pcat (pstr "-") (pRepGE isDigitC 1))
      (pThen pWs0 (pThen (popt (pstr "°")) (pThen pWs0 (pThen (popt (pchI 'C'))
        (pThen pWs0 (pThen ambSep (pThen pWs0 (popt (pstr "+"))))))))))
    (pBefore (pRepGE isDigitC 1)
      (pThen pWs0 (pThen (popt (pstr "°")) (pThen pWs0 (pchI 'C')))))

/-- `[:\s]` -/
def colonWs (c : Char) : Bool := c == ':' || isWs c

/-- `[^\n]` -/
def notNl (c : Char) : Bool := !(c == '\n')

def mfrP1 : P (List Char) :=
  pThen (pstrI "Manufacturer") (pThen (pRepGE colonWs 0) (pThen (pstr "\n")
    (pThen pWs0 (pThen (pstrI "Address") (pThen (pRepGE colonWs 0)
      (pThen (pstr "\n") (pThen pWs0 (pRep notNl 3 80))))))))

def mfrP2 : P (List Char) :=
  pThen (pstrI "Manufacturer") (pThen (pRepGE colonWs 0) (pThen (pstr "\n")
    (pThen pWs0 (pRep notNl 3 80))))

def mfrP3 : P (List Char) :=
  pThen (pstrI "Manufacturer") (pThen (pRepGE colonWs 1) (pRep notNl 3 80))

def mfrP4 : P (List Char) :=
  pThen (pstrI "Applicant") (pThen (pRepGE colonWs 0) (pThen (pstr "\n")
    (pThen pWs0 (pRep notNl 3 80))))

def mfrP5 : P (List Char) :=
  pThen (pstrI "Applicant") (pThen (pRepGE colonWs 1) (pRep notNl 3 80))

def mfrP6 : P (List Char) :=
  pThen (pstrI "Issued") (pThen pWs1 (pThen (pstrI "to")
    (pThen (pRepGE colonWs 0) (pThen (pstr "\n") (pThen pWs0 (pRep notNl 3 80))))))

def mfrP7 : P (List Char) :=
  pThen (pstrI "Issued") (pThen pWs1 (pThen (pstrI "to")
    (pThen (pRepGE colonWs 1) (pRep notNl 3 80))))

def mfrPats : List (P (List Char)) :=
  [mfrP1, mfrP2, mfrP3, mfrP4, mfrP5, mfrP6, mfrP7]

/-- `^(Address|Name|Location|see\b|refer\b|as\s)` with `i`. -/
def mfrDenyP : P (List Char) :=
  palt (pstrI "Address") (palt (pstrI "Name") (palt (pstrI "Location")
    (palt (pBefore (pstrI "see") pEow)
      (palt (pBefore (pstrI "refer") pEow) (pcat (pstrI "as") (pch isWs))))))

def eqP1 : P (List Char) :=
  pThen (pstrI "Equipment") (pThen (pRepGE colonWs 0) (pThen (pstr "\n")
    (pThen pWs0 (pThen (pnla (pstrI "Group")) (pRep notNl 3 120)))))

def eqP2 : P (List Char) :=
  pThen (pstrI "Equipment") (pThen (pRepGE colonWs 1)
    (pThen (pnla (pstrI "Group")) (pRep notNl 3 120)))

def eqP3 : P (List Char) :=
  pThen (pstrI "Apparatus") (pThen (pRepGE colonWs 1) (pRep notNl 3 120))

def eqP4 : P (List Char) :=
  pThen (pstrI "Type") (pThen pWs1 (pThen (pstrI "of") (pThen pWs1
    (pThen (pstrI "Equipment") (pThen (pRepGE colonWs 1) (pRep notNl 3 120))))))

def eqP5 : P (List Char) :=
  pThen (pstrI "Product") (pThen (pRepGE colonWs 0) (pThen (pstr "\n")
    (pThen pWs0 (pRep notNl 3 120))))

def eqP6 : P (List Char) :=
  pThen (pstrI "Product") (pThen (pRepGE colonWs 1) (pRep notNl 3 120))

def eqPats : List (P (List Char)) := [eqP1, eqP2, eqP3, eqP4, eqP5, eqP6]

/-- `^(or\s+Protective|Intended\s+for|listed\s+in)` with `i`. -/
def eqDenyP : P (List Char) :=
  palt (pcat (pstrI "or") (pcat pWs1 (pstrI "Protective")))
    (palt (pcat (pstrI "Intended") (pcat pWs1 (pstrI "for")))
      (pcat (pstrI "listed") (pcat pWs1 (pstrI "in"))))

/-- ISO-like date capture: four digits, a dash or slash, two digits, a dash
or slash, two digits. -/
def dateISO : P (List Char) :=
  pcat (pRep isDigitC 4 4) (pcat (pch (fun c => c == '-' || c == '/'))
    (pcat (pRep isDigitC 2 2) (pcat (pch (fun c => c == '-' || c == '/'))
      (pRep isDigitC 2 2))))

/-- Textual date capture: one or two digits, a separator (whitespace, dot,
slash or dash), three to nine word characters, a separator, four digits. -/
def dateTxt : P (List Char) :=
  pcat (pRep isDigitC 1 2)
    (pcat (pch (fun c => isWs c || c == '.' || c == '/' || c == '-'))
      (pcat (pRep isWordC 3 9)
        (pcat (pch (fun c => isWs c || c == '.' || c == '/' || c == '-'))
          (pRep isDigitC 4 4))))

def issP1 : P (List Char) :=
  pThen (pstrI "Date") (pThen pWs1 (pThen (pstrI "of") (pThen pWs1
    (pThen (pstrI "Issue") (pThen (pRepGE colonWs 0)
      (pThen (popt (pstr "\n")) (pThen pWs0 dateISO)))))))

def issP2 : P (List Char) :=
  pThen (pstrI "Date") (pThen pWs1 (pThen (pstrI "of") (pThen pWs1
    (pThen (pstrI "Issue") (pThen (pRepGE colonWs 1) dateTxt)))))

def issP3 : P (List Char) :=
  pThen (pstrI "Issue") (pThen pWs0 (pThen (palt (pstrI "d") (pstrI "Date"))
    (pThen (pRepGE colonWs 1) dateISO)))

def issP4 : P (List Char) :=
  pThen (pstrI "Issue") (pThen pWs0 (pThen (palt (pstrI "d") (pstrI "Date"))
    (pThen (pRepGE colonWs 1) dateTxt)))

def issP5 : P (List Char) :=
  pThen (pstrI "Issued") (pThen (pRepGE colonWs 1) dateTxt)

def issuePats : List (P (List Char)) := [issP1, issP2, issP3, issP4, issP5]

/-- `Expir[ey]` with `i`. -/
def expHead : P (List Char) :=
  pcat (pstrI "Expir") (pch (fun c => eqI c 'e' || eqI c 'y'))

def expP1 : P (List Char) :=
  pThen expHead (pThen pWs0 (pThen (popt (pstrI "Date"))
    (pThen (pRepGE colonWs 1) dateISO)))

def expP2 : P (List Char) :=
  pThen expHead (pThen pWs0 (pThen (popt (pstrI "Date"))
    (pThen (pRepGE colonWs 1) dateTxt)))

def expP3 : P (List Char) :=
  pThen (pstrI "Valid") (pThen pWs1 (pThen (palt (pstrI "until") (pstrI "to"))
    (pThen (pRepGE colonWs 1) dateISO)))

def expP4 : P (List Char) :=
  pThen (pstrI "Valid") (pThen pWs1 (pThen (palt (pstrI "until") (pstrI "to"))
    (pThen (pRepGE colonWs 1) dateTxt)))

def expP5 : P (List Char) :=
  pThen (pstrI "Validity") (pThen (pRepGE colonWs 1) dateTxt)

def expiryPats : List (P (List Char)) := [expP1, expP2, expP3, expP4, expP5]

/-- `(?=\n\s*\n|\n[A-Z]{2,}|\n\d+\.\s|$)` under `i`. -/
def specLook : P (List Char) :=
  plook (palt (pcat (pstr "\n") (pcat pWs0 (pstr "\n")))
    (palt (pcat (pstr "\n") (pRepGE isLetterC 2))
      (palt (pcat (pstr "\n") (pcat (pRepGE isDigitC 1) (pcat (pstr ".") (pch isWs))))
        pEnd)))

/-- `Special\s+[Cc]onditions?\s*(?:for\s+(?:safe\s+)?use)?[:\s]+([\s\S]{10,500}?)(?=...)`
with `i`; value is the capture. -/
def specP : P (List Char) :=
  pThen (pstrI "Special") (pThen pWs1 (pThen (pstrI "Condition")
    (pThen (popt (pchI 's')) (pThen pWs0
      (pThen (popt (pcat (pstrI "for") (pcat pWs1
        (pcat (popt (pcat (pstrI "safe") pWs1)) (pstrI "use")))))
        (pThen (pRepGE colonWs 1)
          (pBefore (pRepLazy (fun _ => true) 10 500) specLook)))))))

/-- `(?:EN\s+)?(?:IEC\s*)?60079-\d+(?::\d{4})?(?:\+A\d+:\d{4})*` with `gi`. -/
def stdP : P (List Char) :=
  pcat (popt (pcat (pstrI "EN") pWs1)) (pcat (popt (pcat (pstrI "IEC") pWs0))
    (pcat (pstr "60079-") (pcat (pRepGE isDigitC 1)
      (pcat (popt (pcat (pstr ":") (pRep isDigitC 4 4)))
        (pStarGrp (pcat (pstr "+") (pcat (pchI 'A') (pcat (pRepGE isDigitC 1)
          (pcat (pstr ":") (pRep isDigitC 4 4))))))))))

/-- `\bII\s+([1-3])\s+[GDM]\b` (case-sensitive); value is the digit. -/
def catP1 : P (List Char) :=
  pThen (pstr "II") (pThen pWs1 (pBefore (pch (fun c => '1' ≤ c && c ≤ '3'))
    (pThen pWs1 (pBefore (pch (fun c => "GDM".data.contains c)) pEow))))

/-- `\bCategory\s+([1-3][GDM]?)\b` with `i`; value is the capture. -/
def catP2 : P (List Char) :=
  pThen (pstrI "Category") (pThen pWs1
    (pBefore (pcat (pch (fun c => '1' ≤ c && c ≤ '3'))
      (popt (pch (fun c => "gdm".data.contains (asciiLower c))))) pEow))

/-- `Equipment\s+[Gg]roup\s+(I{1,3})` (case-sensitive); value is the capture. -/
def grpP : P (List Char) :=
  pThen (pstr "Equipment") (pThen pWs1 (pThen (pch (fun c => c == 'G' || c == 'g'))
    (pThen (pstr "roup") (pThen pWs1 (pRep (· == 'I') 1 3)))))

/-- `\b(I{2,3})\s+[1-3]\s+[GDM]\b` (case-sensitive); value is the `I` run. -/
def grpAltP : P (List Char) :=
  pBefore (pRep (· == 'I') 2 3) (pThen pWs1 (pThen (pch (fun c => '1' ≤ c && c ≤ '3'))
    (pThen pWs1 (pBefore (pch (fun c => "GDM".data.contains c)) pEow))))

def eplZoneMap : String → Option String
  | "Ga" => some "0"
  | "Gb" => some "1"
  | "Gc" => some "2"
  | "Da" => some "20"
  | "Db" => some "21"
  | "Dc" => some "22"
  | "Ma" => some "M1"
  | "Mb" => some "M2"
  | _ => none

/-! ### Field extractors -/

/-- `iecex[0].replace(/\s+/g, ' ').trim()` -/
def cnIec (v : List Char) : String := String.mk (trimWs (collapseWs v))

/-- `atex[0].replace(/\s+/g, '').trim()` -/
def cnAtex (v : List Char) : String := String.mk (trimWs (stripWs v))

/-- `ukca[0].trim()` -/
def cnUkca (v : List Char) : String := String.mk (trimWs v)

/-- Certificate number and type: IECEx, then ATEX, then UKCA; the first
matching pattern fixes both. -/
def certScan (t : List Char) : Option String × Option String :=
  match scan1 iecexP false t with
  | some v => (some (cnIec v), some "IECEx")
  | none =>
    match scan1 atexP false t with
    | some v => (some (cnAtex v), some "ATEX")
    | none =>
      match scan1 ukcaP false t with
      | some v => (some (cnUkca v), some "UKCA")
      | none => (none, none)

/-- Dual-certification upgrade: an IECEx type becomes "IECEx + ATEX" when an
embedded ATEX-shaped substring occurs; nothing else changes. -/
def certTypeFinal (t : List Char) (ty : Option String) : Option String :=
  if ty == some "IECEx" && (scan1 atexAlsoP false t).isSome then
    some "IECEx + ATEX"
  else ty

/-- `m.trim().replace(/\s+/g, ' ')` -/
def cleanMark (m : List Char) : String := String.mk (collapseWs (trimWs m))

/-- All marking candidates: every match of every shape, in shape order,
cleaned and deduplicated by first occurrence. -/
def markCands (t : List Char) : List String :=
  dedupStr ((markingPats.flatMap (fun p => scanAll p true t)).map cleanMark)

/-- Candidates sorted by descending length (stable). -/
def markingsOf (t : List Char) : List String := sortDesc (markCands t)

/-- `cl.replace(/[abc]$/, '')` -/
def stripLvl1 (l : List Char) : List Char :=
  match l.getLast? with
  | some c => if c == 'a' || c == 'b' || c == 'c' then l.dropLast else l
  | none => l

/-- `cl.replace(/[abcrs]$/, '')` -/
def stripLvl2 (l : List Char) : List Char :=
  match l.getLast? with
  | some c =>
    if c == 'a' || c == 'b' || c == 'c' || c == 'r' || c == 's' then l.dropLast
    else l
  | none => l

structure ProtEntry where
  code : String
  baseType : String
  level : Option String
  description : String
deriving DecidableEq, Repr

def protOfCode (code : List Char) : ProtEntry :=
  let cl := code.map asciiLower
  let base := stripLvl2 cl
  { code := String.mk code
    baseType := String.mk base
    level :=
      match cl.getLast? with
      | some c =>
        if c == 'a' || c == 'b' || c == 'c' then some (String.mk [c]) else none
      | none => none
    description :=
      ((lookupT PROTECTION_TYPES (String.mk base)).orElse
        (fun _ => lookupT PROTECTION_TYPES (String.mk cl))).getD "Unknown" }

def isValidProt (c : List Char) : Bool :=
  let cl := c.map asciiLower
  VALID_PROT_CODES.contains (String.mk cl) ||
    VALID_PROT_CODES.contains (String.mk (stripLvl1 cl))

/-- Protection types, decomposed from the chosen marking only. -/
def protTypesOf (mOpt : Option String) : List ProtEntry :=
  let markingSrc := (mOpt.getD "").data
  match matchHead protP markingSrc with
  | some cap => ((wordsWs (trimWs cap)).filter isValidProt).map protOfCode
  | none => []

/-- `group.replace(/^Group\s+/i, '')` -/
def stripGroupPfx (l : List Char) : List Char :=
  match ((pcat (pstrI "Group") pWs1) l).head? with
  | some (_, r) => r
  | none => l

/-- Gas group: marking-scoped match first, then whole text. -/
def gasOf (markingSrc t : List Char) : Option String × Option String :=
  match (scan1 gasMarkP true markingSrc).orElse (fun _ => scan1 gasTextP true t) with
  | some v =>
    let g := String.mk (stripGroupPfx v)
    (some g, lookupT GAS_GROUP_INFO g)
  | none => (none, none)

/-- Temperature class: marking-scoped match first, then whole text. -/
def tempOf (markingSrc t : List Char) : Option String × Option String :=
  match (scan1 tempP true markingSrc).orElse (fun _ => scan1 tempP true t) with
  | some d =>
    (some ("T" ++ String.mk d), lookupT TEMP_CLASS_INFO ("T" ++ String.mk d))
  | none => (none, none)

/-- EPL: marking-scoped match first, then whole text. -/
def eplOf (markingSrc t : List Char) : Option String :=
  ((scan1 eplP true markingSrc).orElse (fun _ => scan1 eplP true t)).map String.mk

/-- Zone: explicit `Zone n` match, else derived from the EPL. -/
def zoneOf (t : List Char) (epl : Option String) : Option String :=
  match scan1 zoneP false t with
  | some d => some ("Zone " ++ String.mk d)
  | none =>
    match epl with
    | some e => (eplZoneMap e).map (fun z => "Zone " ++ z ++ " (derived from EPL)")
    | none => none

def ipOf (t : List Char) : Option String :=
  (scan1 ipP true t).map (fun v => "IP" ++ String.mk v)

def ambOf (t : List Char) : Option String :=
  (scan1 ambP false t).map
    (fun vp => String.mk vp.1 ++ "°C to +" ++ String.mk vp.2 ++ "°C")

/-- The shared validation steps: reject a denylisted or too-short value. -/
def valCheck (deny : P (List Char)) (val : List Char) : Option String :=
  if testHead deny val then none
  else if val.length < 3 then none
  else some (String.mk val)

/-- Manufacturer candidate validation: trim, drop trailing commas and
whitespace, reject denylisted or too-short values. -/
def mfrValidate (cap : List Char) : Option String :=
  valCheck mfrDenyP (dropTrailCommaWs (trimWs cap))

def eqValidate (cap : List Char) : Option String :=
  valCheck eqDenyP (dropTrailCommaWs (trimWs cap))

/-- First pattern whose match passes validation; a failed validation falls
through to the next pattern. -/
def firstField (pats : List (P (List Char)))
    (validate : List Char → Option String) (t : List Char) : Option String :=
  match pats with
  | [] => none
  | p :: rest =>
    match scan1 p false t with
    | some cap =>
      match validate cap with
      | some v => some v
      | none => firstField rest validate t
    | none => firstField rest validate t

/-- Notified body: first contained name, scanning longest names first. -/
def bodyOf (t : List Char) : Option String :=
  (sortDesc CERT_BODIES).find? (fun b => containsStr t b.data)

/-- First matching date pattern; the capture is stored trimmed. -/
def firstDate (pats : List (P (List Char))) (t : List Char) : Option String :=
  match pats with
  | [] => none
  | p :: rest =>
    match scan1 p false t with
    | some cap => some (String.mk (trimWs cap))
    | none => firstDate rest t

def specOf (t : List Char) : Option String :=
  (scan1 specP false t).map (fun cap => String.mk ((trimWs cap).take 500))

def stdOf (t : List Char) : Option String :=
  match scanAll stdP false t with
  | [] => none
  | ms => some (joinSep ", " (dedupStr (ms.map (fun m => String.mk (trimWs m)))))

def catOf (t : List Char) : Option String :=
  ((scan1 catP1 true t).orElse (fun _ => scan1 catP2 true t)).map String.mk

def grpOf (t : List Char) : Option String :=
  match scan1 grpP false t with
  | some v => some (String.mk v)
  | none => (scan1 grpAltP true t).map String.mk

/-! ### The record and the two public operations -/

structure CertRecord where
  certNumber : Option String
  certType : Option String
  marking : Option String
  markings : List String
  protectionTypes : List ProtEntry
  gasGroup : Option String
  gasGroupInfo : Option String
  tempClass : Option String
  tempClassMax : Option String
  epl : Option String
  zone : Option String
  ipRating : Option String
  ambientTemp : Option String
  manufacturer : Option String
  equipment : Option String
  notifiedBody : Option String
  issueDate : Option String
  expiryDate : Option String
  specialConditions : Option String
  standard : Option String
  category : Option String
  group : Option String
  raw : String
deriving DecidableEq, Repr

def parseC (t : List Char) : CertRecord :=
  let cert0 := certScan t
  let markings := markingsOf t
  let marking := markings.head?
  let markingSrc := (marking.getD "").data
  let gas := gasOf markingSrc t
  let temp := tempOf markingSrc t
  let epl := eplOf markingSrc t
  { certNumber := cert0.1
    certType := certTypeFinal t cert0.2
    marking := marking
    markings := markings
    protectionTypes := protTypesOf marking
    gasGroup := gas.1
    gasGroupInfo := gas.2
    tempClass := temp.1
    tempClassMax := temp.2
    epl := epl
    zone := zoneOf t epl
    ipRating := ipOf t
    ambientTemp := ambOf t
    manufacturer := firstField mfrPats mfrValidate t
    equipment := firstField eqPats eqValidate t
    notifiedBody := bodyOf t
    issueDate := firstDate issuePats t
    expiryDate := firstDate expiryPats t
    specialConditions := specOf t
    standard := stdOf t
    category := catOf t
    group := grpOf t
    raw := String.mk t }

/-- The public `parse`. -/
def parse (s : String) : CertRecord := parseC s.data

/-- JavaScript truthiness of a nullable string field: `null` and the empty
string both fail the `if (val ...)` presence test. -/
def presentS : Option String → Bool
  | some s => s != ""
  | none => false

/-- The public `confidence`: weighted sum over present fields, capped. -/
def confidence (r : CertRecord) : Nat :=
  let score :=
    (if presentS r.certNumber then 20 else 0) +
    (if presentS r.marking then 20 else 0) +
    (if presentS r.gasGroup then 10 else 0) +
    (if presentS r.tempClass then 10 else 0) +
    (if !r.protectionTypes.isEmpty then 10 else 0) +
    (if presentS r.epl then 5 else 0) +
    (if presentS r.manufacturer then 5 else 0) +
    (if presentS r.equipment then 5 else 0) +
    (if presentS r.notifiedBody then 5 else 0) +
    (if presentS r.ipRating then 3 else 0) +
    (if presentS r.ambientTemp then 3 else 0) +
    (if presentS r.issueDate then 2 else 0) +
    (if presentS r.expiryDate then 2 else 0)
  min 100 score

/-- Every outcome of the matcher has a non-whitespace character in its
value.  Backbone of the no-empty-field invariant. -/
def GoodV (p : P (List Char)) : Prop :=
  ∀ s vr, vr ∈ p s → ∃ c, c ∈ vr.1 ∧ isWs c = false

/-- Every outcome of the matcher has a non-empty value. -/
def NonNilV (p : P (List Char)) : Prop := ∀ s vr, vr ∈ p s → vr.1 ≠ []

/-- A field that is either absent or a non-empty string. -/
def NonEmptyOpt (o : Option String) : Prop := ∀ s, o = some s → s ≠ ""

/-! ### Character-class facts -/

theorem asciiLower_of_ws (c : Char) (h : isWs c = true) : asciiLower c = c := by
  simp only [isWs, Bool.or_eq_true, beq_iff_eq, Bool.and_eq_true,
    decide_eq_true_eq] at h
  have hn : ¬ (65 ≤ c.toNat ∧ c.toNat ≤ 90) := by omega
  simp [asciiLower, hn]

theorem ws_of_eqI (x c : Char) (he : eqI x c = true) (hx : isWs x = true) :
    isWs (asciiLower c) = true := by
  have h1 : asciiLower x = asciiLower c := by
    simpa [eqI] using he
  rw [← h1, asciiLower_of_ws x hx]
  exact hx

theorem not_ws_of_letter (c : Char) (h : isLetterC c = true) : isWs c = false := by
  simp only [isLetterC, Bool.or_eq_true, Bool.and_eq_true, decide_eq_true_eq] at h
  by_contra hw
  rw [Bool.not_eq_false] at hw
  simp only [isWs, Bool.or_eq_true, beq_iff_eq, Bool.and_eq_true,
    decide_eq_true_eq] at hw
  omega

theorem not_ws_of_digit (c : Char) (h : isDigitC c = true) : isWs c = false := by
  simp only [isDigitC, Bool.and_eq_true, decide_eq_true_eq] at h
  by_contra hw
  rw [Bool.not_eq_false] at hw
  simp only [isWs, Bool.or_eq_true, beq_iff_eq, Bool.and_eq_true,
    decide_eq_true_eq] at hw
  omega

/-! ### Matcher value lemmas -/

theorem mem_pseq {p : P α} {q : P β} {s : List Char} {vr : (α × β) × List Char}
    (h : vr ∈ pseq p q s) :
    ∃ a r1 b, (a, r1) ∈ p s ∧ (b, vr.2) ∈ q r1 ∧ vr.1 = (a, b) := by
  simp only [pseq, List.mem_flatMap, List.mem_map] at h
  obtain ⟨⟨a, r1⟩, ha, ⟨b, r2⟩, hb, hvr⟩ := h
  exact ⟨a, r1, b, ha, by rw [← hvr]; exact hb, by rw [← hvr]⟩

theorem mem_pcat {p q : P (List Char)} {s : List Char} {vr : List Char × List Char}
    (h : vr ∈ pcat p q s) :
    ∃ a r1 b, (a, r1) ∈ p s ∧ (b, vr.2) ∈ q r1 ∧ vr.1 = a ++ b := by
  simp only [pcat, pmap, List.mem_map] at h
  obtain ⟨⟨⟨a, b⟩, r2⟩, hm, hvr⟩ := h
  obtain ⟨a', r1, b', ha, hb, hab⟩ := mem_pseq hm
  have hab' : (a, b) = (a', b') := hab
  injection hab' with h1 h2
  subst h1
  subst h2
  exact ⟨a, r1, b, ha, by rw [← hvr]; exact hb, by rw [← hvr]⟩

theorem goodV_pcat_left {p q : P (List Char)} (h : GoodV p) : GoodV (pcat p q) := by
  intro s vr hm
  obtain ⟨a, r1, b, ha, _, hv⟩ := mem_pcat hm
  obtain ⟨c, hc, hws⟩ := h s (a, r1) ha
  exact ⟨c, by simp [hv, hc], hws⟩

theorem goodV_pcat_right {p q : P (List Char)} (h : GoodV q) : GoodV (pcat p q) := by
  intro s vr hm
  obtain ⟨a, r1, b, _, hb, hv⟩ := mem_pcat hm
  obtain ⟨c, hc, hws⟩ := h r1 (b, vr.2) hb
  exact ⟨c, by simp [hv, hc], hws⟩

theorem mem_pch {f : Char → Bool} {s : List Char} {vr : List Char × List Char}
    (h : vr ∈ pch f s) : ∃ c, f c = true ∧ vr.1 = [c] := by
  match s with
  | [] => simp [pch] at h
  | c :: r =>
    by_cases hf : f c = true
    · simp only [pch, hf, if_true, List.mem_singleton] at h
      exact ⟨c, hf, by rw [h]⟩
    · simp [pch, hf] at h

theorem goodV_pch {f : Char → Bool} (h : ∀ c, f c = true → isWs c = false) :
    GoodV (pch f) := by
  intro s vr hm
  obtain ⟨c, hf, hv⟩ := mem_pch hm
  exact ⟨c, by simp [hv], h c hf⟩

theorem goodV_pchI {c : Char} (h : isWs (asciiLower c) = false) :
    GoodV (pchI c) := by
  refine goodV_pch (fun x hx => ?_)
  by_cases hw : isWs x = true
  · exact absurd (ws_of_eqI x c hx hw) (by simp [h])
  · simpa using hw

theorem goodV_pstrIAux_cons (c : Char) (cs : List Char)
    (h : isWs (asciiLower c) = false) : GoodV (pstrIAux (c :: cs)) := by
  rw [pstrIAux]
  exact goodV_pcat_left (goodV_pchI h)

theorem mem_pstrAux {cs s : List Char} {vr : List Char × List Char}
    (h : vr ∈ pstrAux cs s) : vr.1 = cs := by
  induction cs generalizing s vr with
  | nil => simp only [pstrAux, peps, List.mem_singleton] at h; rw [h]
  | cons c cs ih =>
    rw [pstrAux] at h
    obtain ⟨a, r1, b, ha, hb, hv⟩ := mem_pcat h
    obtain ⟨c', hf, ha1⟩ := mem_pch ha
    have hb1 : b = cs := ih hb
    have ha1' : a = [c'] := ha1
    simp only [beq_iff_eq] at hf
    rw [hv, ha1', hb1, hf]
    rfl

theorem goodV_pstr {w : String} (h : ∃ c ∈ w.data, isWs c = false) :
    GoodV (pstr w) := by
  intro s vr hm
  have := mem_pstrAux hm
  obtain ⟨c, hc, hw⟩ := h
  exact ⟨c, by rw [this]; exact hc, hw⟩

theorem mem_pRep {f : Char → Bool} {lo hb : Nat} {s : List Char}
    {vr : List Char × List Char} (h : vr ∈ pRep f lo hb s) :
    ∃ k, lo ≤ k ∧ k ≤ (s.takeWhile f).length ∧ vr.1 = s.take k := by
  simp only [pRep, List.mem_map, List.mem_range] at h
  obtain ⟨i, hilt, hvr⟩ := h
  refine ⟨min (s.takeWhile f).length hb - i, by omega, by omega, ?_⟩
  rw [← hvr]

theorem mem_pRepGE {f : Char → Bool} {lo : Nat} {s : List Char}
    {vr : List Char × List Char} (h : vr ∈ pRepGE f lo s) :
    ∃ k, lo ≤ k ∧ k ≤ (s.takeWhile f).length ∧ vr.1 = s.take k := by
  simp only [pRepGE, List.mem_map, List.mem_range] at h
  obtain ⟨i, hilt, hvr⟩ := h
  refine ⟨(s.takeWhile f).length - i, by omega, by omega, ?_⟩
  rw [← hvr]

theorem take_head_prop {f : Char → Bool} {s : List Char} {k : Nat}
    (hk : 1 ≤ k) (hle : k ≤ (s.takeWhile f).length) :
    ∃ c, c ∈ s.take k ∧ f c = true := by
  match s with
  | [] => simp at hle; omega
  | c :: s' =>
    by_cases hf : f c = true
    · refine ⟨c, ?_, hf⟩
      match k, hk with
      | k + 1, _ => simp [List.take]
    · simp [List.takeWhile_cons, hf] at hle
      omega

theorem goodV_pRep {f : Char → Bool} {lo hi : Nat} (hlo : 1 ≤ lo)
    (hf : ∀ c, f c = true → isWs c = false) : GoodV (pRep f lo hi) := by
  intro s vr hm
  obtain ⟨k, hk1, hk2, hv⟩ := mem_pRep hm
  obtain ⟨c, hc, hfc⟩ := take_head_prop (Nat.le_trans hlo hk1) hk2
  exact ⟨c, by rw [hv]; exact hc, hf c hfc⟩

theorem goodV_pRepGE {f : Char → Bool} {lo : Nat} (hlo : 1 ≤ lo)
    (hf : ∀ c, f c = true → isWs c = false) : GoodV (pRepGE f lo) := by
  intro s vr hm
  obtain ⟨k, hk1, hk2, hv⟩ := mem_pRepGE hm
  obtain ⟨c, hc, hfc⟩ := take_head_prop (Nat.le_trans hlo hk1) hk2
  exact ⟨c, by rw [hv]; exact hc, hf c hfc⟩

theorem mem_palt {p q : P α} {s : List Char} {vr : α × List Char}
    (h : vr ∈ palt p q s) : vr ∈ p s ∨ vr ∈ q s := by
  simpa [palt] using h

theorem mem_popt {p : P (List Char)} {s : List Char} {vr : List Char × List Char}
    (h : vr ∈ popt p s) : vr ∈ p s ∨ vr = ([], s) := by
  simpa [popt] using h

/-! ### Scanner soundness: any reported value is an outcome of the matcher -/

theorem head?_mem {l : List α} {a : α} (h : l.head? = some a) : a ∈ l := by
  match l with
  | [] => simp at h
  | x :: xs =>
    simp only [List.head?] at h
    injection h with h
    rw [← h]
    exact List.mem_cons_self x xs

theorem scanFrom_sound {p : P α} {anch : Bool} :
    ∀ {s : List Char} {prev : Option Char} {a : α} {m r : List Char},
      scanFrom p anch prev s = some (a, m, r) → ∃ s', (a, r) ∈ p s' := by
  intro s
  induction s with
  | nil =>
    intro prev a m r h
    rw [scanFrom] at h
    split at h
    · rename_i heq
      split at heq
      · simp at heq
      · split at heq
        · rename_i a' r' hh
          injection h with h
          rw [h] at heq
          injection heq with heq
          simp only [Prod.mk.injEq] at heq
          obtain ⟨h1, _, h3⟩ := heq
          refine ⟨[], ?_⟩
          rw [← h1, ← h3]
          exact head?_mem hh
        · simp at heq
    · simp at h
  | cons c rest ih =>
    intro prev a m r h
    rw [scanFrom] at h
    split at h
    · rename_i heq
      split at heq
      · simp at heq
      · split at heq
        · rename_i a' r' hh
          injection h with h
          rw [h] at heq
          injection heq with heq
          simp only [Prod.mk.injEq] at heq
          obtain ⟨h1, _, h3⟩ := heq
          refine ⟨c :: rest, ?_⟩
          rw [← h1, ← h3]
          exact head?_mem hh
        · simp at heq
    · exact ih h

theorem scanAllF_sound {p : P α} {anch : Bool} :
    ∀ {fuel : Nat} {prev : Option Char} {s : List Char} {a : α},
      a ∈ scanAllF p anch fuel prev s → ∃ s' r, (a, r) ∈ p s' := by
  intro fuel
  induction fuel with
  | zero =>
    intro prev s a h
    rw [scanAllF] at h
    simp at h
  | succ n ih =>
    intro prev s a h
    rw [scanAllF] at h
    split at h
    · simp at h
    · rename_i a' consumed r hsc
      split at h
      · rcases List.mem_cons.mp h with h1 | h1
        · obtain ⟨s', hm⟩ := scanFrom_sound hsc
          exact ⟨s', r, h1 ▸ hm⟩
        · split at h1
          · simp at h1
          · exact ih h1
      · rcases List.mem_cons.mp h with h1 | h1
        · obtain ⟨s', hm⟩ := scanFrom_sound hsc
          exact ⟨s', r, h1 ▸ hm⟩
        · exact ih h1

theorem scanAll_sound {p : P α} {anch : Bool} {s : List Char} {a : α}
    (h : a ∈ scanAll p anch s) : ∃ s' r, (a, r) ∈ p s' :=
  scanAllF_sound h

theorem scan1_sound {p : P α} {anch : Bool} {s : List Char} {a : α}
    (h : scan1 p anch s = some a) : ∃ s' r, (a, r) ∈ p s' := by
  unfold scan1 at h
  match hsc : scanFrom p anch none s with
  | none => rw [hsc] at h; simp at h
  | some (a', m, r) =>
    rw [hsc] at h
    simp only [Option.map_some'] at h
    injection h with h
    obtain ⟨s', hm⟩ := scanFrom_sound hsc
    exact ⟨s', r, h ▸ hm⟩

/-! ### Trimming and collapsing preserve a non-whitespace witness -/

theorem mem_dropWhile_of {f : Char → Bool} {c : Char} {l : List Char}
    (hc : c ∈ l) (hf : f c = false) : c ∈ l.dropWhile f := by
  induction l with
  | nil => simp at hc
  | cons x xs ih =>
    by_cases hx : f x = true
    · rw [List.dropWhile_cons_of_pos hx]
      rcases List.mem_cons.mp hc with h1 | h1
      · rw [h1] at hf; rw [hf] at hx; simp at hx
      · exact ih h1
    · rw [List.dropWhile_cons_of_neg hx]
      exact hc

theorem mem_trimWs {c : Char} {l : List Char} (hc : c ∈ l)
    (hw : isWs c = false) : c ∈ trimWs l := by
  unfold trimWs dropRWhile
  have h1 : c ∈ l.dropWhile isWs := mem_dropWhile_of hc hw
  have h2 : c ∈ (l.dropWhile isWs).reverse := List.mem_reverse.mpr h1
  exact List.mem_reverse.mpr (mem_dropWhile_of h2 hw)

theorem trimWs_ne_nil {l : List Char} (h : ∃ c, c ∈ l ∧ isWs c = false) :
    trimWs l ≠ [] := by
  obtain ⟨c, hc, hw⟩ := h
  intro hnil
  have := mem_trimWs hc hw
  rw [hnil] at this
  simp at this

theorem mem_collapseWsF {c : Char} :
    ∀ {fuel : Nat} {l : List Char}, l.length ≤ fuel → c ∈ l →
      isWs c = false → c ∈ collapseWsF fuel l := by
  intro fuel
  induction fuel with
  | zero =>
    intro l hf hc hw
    match l with
    | [] => simp at hc
    | x :: xs => simp at hf
  | succ n ih =>
    intro l hf hc hw
    match l with
    | [] => simp at hc
    | x :: xs =>
      by_cases hx : isWs x = true
      · rw [collapseWsF, if_pos hx]
        rcases List.mem_cons.mp hc with h1 | h1
        · rw [h1] at hw; rw [hw] at hx; simp at hx
        · have hlen : (xs.dropWhile isWs).length ≤ n := by
            have := dropWhile_len_le isWs xs
            simp at hf
            omega
          exact List.mem_cons_of_mem _ (ih hlen (mem_dropWhile_of h1 hw) hw)
      · rw [collapseWsF, if_neg hx]
        rcases List.mem_cons.mp hc with h1 | h1
        · rw [h1]; exact List.mem_cons_self _ _
        · have hlen : xs.length ≤ n := by simp at hf; omega
          exact List.mem_cons_of_mem _ (ih hlen h1 hw)

theorem mem_collapseWs {c : Char} {l : List Char} (hc : c ∈ l)
    (hw : isWs c = false) : c ∈ collapseWs l :=
  mem_collapseWsF (Nat.le_refl _) hc hw

theorem mem_stripWs {c : Char} {l : List Char} (hc : c ∈ l)
    (hw : isWs c = false) : c ∈ stripWs l := by
  unfold stripWs
  exact List.mem_filter.mpr ⟨hc, by rw [hw]; rfl⟩

theorem stringMk_ne_empty {l : List Char} (h : l ≠ []) : String.mk l ≠ "" := by
  intro he
  apply h
  have : ("" : String) = String.mk [] := rfl
  rw [this] at he
  injection he

/-! ### The descending-length sort and first-seen deduplication -/

theorem mem_insDesc {x a : String} {l : List String} :
    a ∈ insDesc x l ↔ a = x ∨ a ∈ l := by
  induction l with
  | nil => simp [insDesc]
  | cons y ys ih =>
    rw [insDesc]
    by_cases hxy : y.length ≤ x.length
    · rw [if_pos hxy]
      simp [List.mem_cons]
    · rw [if_neg hxy]
      simp only [List.mem_cons, ih]
      tauto

theorem mem_sortDesc {a : String} {l : List String} :
    a ∈ sortDesc l ↔ a ∈ l := by
  induction l with
  | nil => simp [sortDesc]
  | cons x xs ih =>
    rw [sortDesc]
    rw [mem_insDesc]
    simp [List.mem_cons, ih]

theorem pairwise_insDesc {x : String} {l : List String}
    (h : l.Pairwise (fun u v => v.length ≤ u.length)) :
    (insDesc x l).Pairwise (fun u v => v.length ≤ u.length) := by
  induction l with
  | nil => simp [insDesc]
  | cons y ys ih =>
    rw [insDesc]
    obtain ⟨hy, hys⟩ := List.pairwise_cons.mp h
    by_cases hxy : y.length ≤ x.length
    · rw [if_pos hxy]
      refine List.Pairwise.cons ?_ h
      intro z hz
      rcases List.mem_cons.mp hz with rfl | hz'
      · exact hxy
      · exact le_trans (hy z hz') hxy
    · rw [if_neg hxy]
      refine List.Pairwise.cons ?_ (ih hys)
      intro z hz
      rcases mem_insDesc.mp hz with rfl | hz'
      · omega
      · exact hy z hz'

theorem pairwise_sortDesc (l : List String) :
    (sortDesc l).Pairwise (fun u v => v.length ≤ u.length) := by
  induction l with
  | nil => simp [sortDesc]
  | cons x xs ih => exact pairwise_insDesc ih

/-- The head of the sorted candidate list is longest among all candidates. -/
theorem sortDesc_head_max {l : List String} {m : String}
    (hh : (sortDesc l).head? = some m) : ∀ c ∈ l, c.length ≤ m.length := by
  intro c hc
  have hcs : c ∈ sortDesc l := mem_sortDesc.mpr hc
  match hsd : sortDesc l with
  | [] => rw [hsd] at hcs; simp at hcs
  | m' :: rest =>
    rw [hsd] at hh
    injection hh with hh
    rw [hsd] at hcs
    have hp := pairwise_sortDesc l
    rw [hsd] at hp
    rcases List.mem_cons.mp hcs with rfl | hc'
    · rw [hh]
    · rw [← hh]
      exact (List.pairwise_cons.mp hp).1 c hc'

theorem mem_dedupStrF :
    ∀ {fuel : Nat} {l : List String} {a : String}, a ∈ dedupStrF fuel l → a ∈ l := by
  intro fuel
  induction fuel with
  | zero =>
    intro l a h
    rw [dedupStrF] at h
    simp at h
  | succ n ih =>
    intro l a h
    match l with
    | [] => rw [dedupStrF] at h; simp at h
    | x :: xs =>
      rw [dedupStrF] at h
      rcases List.mem_cons.mp h with rfl | h'
      · exact List.mem_cons_self _ _
      · exact List.mem_cons_of_mem _ (List.mem_filter.mp (ih h')).1

theorem mem_dedupStr {l : List String} {a : String} (h : a ∈ dedupStr l) :
    a ∈ l :=
  mem_dedupStrF h

theorem find?_pred {l : List String} {p : String → Bool} {b : String}
    (h : l.find? p = some b) : p b = true :=
  List.find?_some h

/-- On a list sorted by descending length, `find?` returns an element whose
length is maximal among all elements satisfying the predicate. -/
theorem find?_sorted_max {l : List String} {pred : String → Bool} {b : String}
    (hp : l.Pairwise (fun u v => v.length ≤ u.length))
    (h : l.find? pred = some b) :
    ∀ b' ∈ l, pred b' = true → b'.length ≤ b.length := by
  induction l with
  | nil => simp at h
  | cons x xs ih =>
    obtain ⟨hx, hxs⟩ := List.pairwise_cons.mp hp
    intro b' hb' hpb'
    by_cases hpx : pred x = true
    · rw [List.find?_cons_of_pos _ hpx] at h
      injection h with h
      rcases List.mem_cons.mp hb' with rfl | hb''
      · rw [h]
      · rw [← h]
        exact hx b' hb''
    · rw [List.find?_cons_of_neg _ (by simpa using hpx)] at h
      rcases List.mem_cons.mp hb' with rfl | hb''
      · rw [hpb'] at hpx; simp at hpx
      · exact ih hxs h b' hb'' hpb'

/-! ### Value transfer through the capture-selecting combinators -/

theorem mem_pThen {p : P α} {q : P β} {s : List Char} {vr : β × List Char}
    (h : vr ∈ pThen p q s) : ∃ s1, (vr.1, vr.2) ∈ q s1 := by
  simp only [pThen, pmap, List.mem_map] at h
  obtain ⟨⟨⟨a, b⟩, r2⟩, hm, hvr⟩ := h
  obtain ⟨a', r1, b', _, hb, hab⟩ := mem_pseq hm
  have hab' : (a, b) = (a', b') := hab
  injection hab' with h1 h2
  subst h1
  subst h2
  refine ⟨r1, ?_⟩
  rw [← hvr]
  exact hb

theorem mem_pBefore {p : P α} {q : P β} {s : List Char} {vr : α × List Char}
    (h : vr ∈ pBefore p q s) : ∃ r1, (vr.1, r1) ∈ p s := by
  simp only [pBefore, pmap, List.mem_map] at h
  obtain ⟨⟨⟨a, b⟩, r2⟩, hm, hvr⟩ := h
  obtain ⟨a', r1, b', ha, _, hab⟩ := mem_pseq hm
  have hab' : (a, b) = (a', b') := hab
  injection hab' with h1 h2
  subst h1
  subst h2
  refine ⟨r1, ?_⟩
  rw [← hvr]
  exact ha

theorem goodV_pThen {p : P α} {q : P (List Char)} (h : GoodV q) :
    GoodV (pThen p q) := by
  intro s vr hm
  obtain ⟨s1, hq⟩ := mem_pThen hm
  exact h s1 _ hq

theorem goodV_pBefore {p : P (List Char)} {q : P β} (h : GoodV p) :
    GoodV (pBefore p q) := by
  intro s vr hm
  obtain ⟨r1, hp⟩ := mem_pBefore hm
  exact h s (vr.1, r1) hp

theorem goodV_palt {p q : P (List Char)} (hp : GoodV p) (hq : GoodV q) :
    GoodV (palt p q) := by
  intro s vr hm
  rcases mem_palt hm with h | h
  · exact hp s vr h
  · exact hq s vr h

theorem goodV_pstrI_of (w : String) (c : Char) (cs : List Char)
    (hd : w.data = c :: cs) (h : isWs (asciiLower c) = false) :
    GoodV (pstrI w) := by
  rw [pstrI, hd]
  exact goodV_pstrIAux_cons c cs h

/-! ### Emptiness helpers for constructed field values -/

theorem data_append (s t : String) : (s ++ t).data = s.data ++ t.data := by
  cases s
  cases t
  rfl

theorem ne_empty_of_data {s : String} (h : s.data ≠ []) : s ≠ "" := by
  intro he
  rw [he] at h
  exact h rfl

theorem append_ne_empty_left {s : String} (t : String) (h : s.data ≠ []) :
    s ++ t ≠ "" := by
  apply ne_empty_of_data
  rw [data_append]
  intro he
  exact h (List.append_eq_nil.mp he).1

/-! ### Matchers that never produce an empty value -/

theorem nonNilV_of_goodV {p : P (List Char)} (h : GoodV p) : NonNilV p := by
  intro s vr hm
  obtain ⟨c, hc, _⟩ := h s vr hm
  exact List.ne_nil_of_mem hc

theorem nonNilV_pch {f : Char → Bool} : NonNilV (pch f) := by
  intro s vr hm
  obtain ⟨c, _, hv⟩ := mem_pch hm
  rw [hv]
  simp

theorem nonNilV_pcat_left {p q : P (List Char)} (h : NonNilV p) :
    NonNilV (pcat p q) := by
  intro s vr hm
  obtain ⟨a, r1, b, ha, _, hv⟩ := mem_pcat hm
  rw [hv]
  intro he
  exact h s (a, r1) ha (List.append_eq_nil.mp he).1

theorem nonNilV_pRep {f : Char → Bool} {lo hb : Nat} (hlo : 1 ≤ lo) :
    NonNilV (pRep f lo hb) := by
  intro s vr hm
  obtain ⟨k, hk1, hk2, hv⟩ := mem_pRep hm
  obtain ⟨c, hc, _⟩ := take_head_prop (Nat.le_trans hlo hk1) hk2
  rw [hv]
  exact List.ne_nil_of_mem hc

theorem nonNilV_pThen {p : P α} {q : P (List Char)} (h : NonNilV q) :
    NonNilV (pThen p q) := by
  intro s vr hm
  obtain ⟨s1, hq⟩ := mem_pThen hm
  exact h s1 _ hq

theorem nonNilV_pBefore {p : P (List Char)} {q : P β} (h : NonNilV p) :
    NonNilV (pBefore p q) := by
  intro s vr hm
  obtain ⟨r1, hp⟩ := mem_pBefore hm
  exact h s (vr.1, r1) hp

theorem nonNilV_palt {p q : P (List Char)} (hp : NonNilV p) (hq : NonNilV q) :
    NonNilV (palt p q) := by
  intro s vr hm
  rcases mem_palt hm with h | h
  · exact hp s vr h
  · exact hq s vr h

/-! ### GoodV instances for the patterns feeding trimmed stores -/

theorem goodV_iecexP : GoodV iecexP :=
  goodV_pcat_left (goodV_pstrI_of "IECEx" 'I' "ECEx".data rfl (by decide))

theorem goodV_atexP : GoodV atexP :=
  goodV_pcat_left (goodV_pRep (by decide) not_ws_of_letter)

theorem goodV_ukcaP : GoodV ukcaP :=
  goodV_pcat_left (goodV_pstrI_of "UKCA" 'U' "KCA".data rfl (by decide))

theorem goodV_markingPats : ∀ p ∈ markingPats, GoodV p := by
  have hEx : GoodV (pstrI "Ex") := goodV_pstrI_of "Ex" 'E' "x".data rfl (by decide)
  intro p hp
  simp only [markingPats, List.mem_cons, List.not_mem_nil, or_false] at hp
  rcases hp with rfl | rfl | rfl | rfl | rfl
  · exact goodV_pcat_left hEx
  · exact goodV_pcat_left hEx
  · exact goodV_pcat_left hEx
  · exact goodV_pcat_left hEx
  · exact goodV_pcat_left hEx

theorem goodV_dateISO : GoodV dateISO :=
  goodV_pcat_left (goodV_pRep (by decide) not_ws_of_digit)

theorem goodV_dateTxt : GoodV dateTxt :=
  goodV_pcat_left (goodV_pRep (by decide) not_ws_of_digit)

theorem goodV_issuePats : ∀ p ∈ issuePats, GoodV p := by
  intro p hp
  simp only [issuePats, List.mem_cons, List.not_mem_nil, or_false] at hp
  rcases hp with rfl | rfl | rfl | rfl | rfl
  · exact goodV_pThen (goodV_pThen (goodV_pThen (goodV_pThen (goodV_pThen
      (goodV_pThen (goodV_pThen (goodV_pThen goodV_dateISO)))))))
  · exact goodV_pThen (goodV_pThen (goodV_pThen (goodV_pThen (goodV_pThen
      (goodV_pThen goodV_dateTxt)))))
  · exact goodV_pThen (goodV_pThen (goodV_pThen (goodV_pThen goodV_dateISO)))
  · exact goodV_pThen (goodV_pThen (goodV_pThen (goodV_pThen goodV_dateTxt)))
  · exact goodV_pThen (goodV_pThen goodV_dateTxt)

theorem goodV_expiryPats : ∀ p ∈ expiryPats, GoodV p := by
  intro p hp
  simp only [expiryPats, List.mem_cons, List.not_mem_nil, or_false] at hp
  rcases hp with rfl | rfl | rfl | rfl | rfl
  · exact goodV_pThen (goodV_pThen (goodV_pThen (goodV_pThen goodV_dateISO)))
  · exact goodV_pThen (goodV_pThen (goodV_pThen (goodV_pThen goodV_dateTxt)))
  · exact goodV_pThen (goodV_pThen (goodV_pThen (goodV_pThen goodV_dateISO)))
  · exact goodV_pThen (goodV_pThen (goodV_pThen (goodV_pThen goodV_dateTxt)))
  · exact goodV_pThen (goodV_pThen goodV_dateTxt)

theorem goodV_stdP : GoodV stdP :=
  goodV_pcat_right (goodV_pcat_right (goodV_pcat_left (goodV_pstr (by decide))))

theorem nonNilV_eplP : NonNilV eplP :=
  nonNilV_pBefore (nonNilV_pcat_left nonNilV_pch)

theorem nonNilV_catP1 : NonNilV catP1 :=
  nonNilV_pThen (nonNilV_pThen (nonNilV_pBefore nonNilV_pch))

theorem nonNilV_catP2 : NonNilV catP2 :=
  nonNilV_pThen (nonNilV_pThen (nonNilV_pBefore (nonNilV_pcat_left nonNilV_pch)))

theorem nonNilV_grpP : NonNilV grpP :=
  nonNilV_pThen (nonNilV_pThen (nonNilV_pThen (nonNilV_pThen
    (nonNilV_pThen (nonNilV_pRep (by decide))))))

theorem nonNilV_grpAltP : NonNilV grpAltP :=
  nonNilV_pBefore (nonNilV_pRep (by decide))

/-! ### The gas-group store survives the Group-prefix strip -/

theorem eqI_refl (c : Char) : eqI c c = true := by
  simp [eqI]

theorem pstrIAux_self (cs : List Char) :
    ∀ rest : List Char, pstrIAux cs (cs ++ rest) = [(cs, rest)] := by
  induction cs with
  | nil => intro rest; rfl
  | cons c cs ih =>
    intro rest
    rw [pstrIAux]
    show pcat (pchI c) (pstrIAux cs) (c :: (cs ++ rest)) = _
    simp [pcat, pseq, pmap, pchI, pch, eqI_refl, ih rest]

theorem takeWhile_ws_append (ws : List Char) (ip : List Char)
    (hws : ∀ c ∈ ws, isWs c = true) :
    (ws ++ 'I' :: ip).takeWhile isWs = ws := by
  induction ws with
  | nil => simp [List.takeWhile_cons, (by decide : isWs 'I' = false)]
  | cons c cs ih =>
    have hc : isWs c = true := hws c (List.mem_cons_self _ _)
    simp only [List.cons_append, List.takeWhile_cons, hc, if_true]
    rw [ih (fun x hx => hws x (List.mem_cons_of_mem _ hx))]

theorem pWs1_head (ws : List Char) (ip : List Char)
    (hws : ∀ c ∈ ws, isWs c = true) (hne : ws ≠ []) :
    (pWs1 (ws ++ 'I' :: ip)).head? = some (ws, 'I' :: ip) := by
  unfold pWs1 pRepGE
  rw [takeWhile_ws_append ws ip hws]
  have hlen : 1 ≤ ws.length := by
    match ws, hne with
    | c :: cs, _ => simp
  rw [List.head?_map]
  have hr : (List.range (ws.length + 1 - 1)).head? = some 0 := by
    have h2 : ws.length + 1 - 1 = ws.length := by omega
    obtain ⟨n, hn⟩ : ∃ n, ws.length = n + 1 := ⟨ws.length - 1, by omega⟩
    rw [h2, hn, List.range_succ_eq_map]
    rfl
  rw [hr]
  simp only [Option.map_some', Nat.sub_zero]
  rw [List.take_left, List.drop_left]

theorem head_pcat_single {p q : P (List Char)} {s v1 r1 v2 r2 : List Char}
    (hp : p s = [(v1, r1)]) (hq : (q r1).head? = some (v2, r2)) :
    ((pcat p q) s).head? = some (v1 ++ v2, r2) := by
  unfold pcat pseq pmap
  simp only [hp, List.flatMap_cons, List.flatMap_nil, List.append_nil,
    List.map_map, List.head?_map, hq]
  rfl

theorem stripGroupPfx_headI (x : List Char) :
    stripGroupPfx ('I' :: x) = 'I' :: x := by
  have hG : ("Group").data = 'G' :: ("roup").data := rfl
  have hempty : (pcat (pstrI "Group") pWs1) ('I' :: x) = [] := by
    have h1 : pstrI "Group" ('I' :: x) = [] := by
      rw [pstrI, hG, pstrIAux]
      simp [pcat, pseq, pmap, pchI, pch, (by decide : eqI 'I' 'G' = false)]
    simp [pcat, pseq, pmap, h1]
  unfold stripGroupPfx
  rw [hempty]
  rfl

theorem stripGroupPfx_group (ws ip : List Char)
    (hws : ∀ c ∈ ws, isWs c = true) (hne : ws ≠ []) :
    stripGroupPfx (("Group").data ++ ws ++ 'I' :: ip) = 'I' :: ip := by
  have h1 : pstrI "Group" (("Group").data ++ (ws ++ 'I' :: ip)) =
      [(("Group").data, ws ++ 'I' :: ip)] := by
    rw [pstrI]
    exact pstrIAux_self _ _
  have h2 := pWs1_head ws ip hws hne
  have h3 := head_pcat_single h1 h2
  unfold stripGroupPfx
  rw [List.append_assoc]
  rw [h3]

theorem mem_gasB1 {s : List Char} {vr : List Char × List Char}
    (h : vr ∈ gasB1 s) : ∃ x, vr.1 = 'I' :: x := by
  obtain ⟨a, r1, b, ha, _, hv⟩ := mem_pcat h
  have ha' : a = ("III").data := mem_pstrAux ha
  exact ⟨("II").data ++ b, by rw [hv, ha']; rfl⟩

theorem mem_gasB2 {s : List Char} {vr : List Char × List Char}
    (h : vr ∈ gasB2 s) : ∃ x, vr.1 = 'I' :: x := by
  obtain ⟨a, r1, b, ha, _, hv⟩ := mem_pcat h
  have ha' : a = ("II").data := mem_pstrAux ha
  exact ⟨("I").data ++ b, by rw [hv, ha']; rfl⟩

theorem mem_take_takeWhile {f : Char → Bool} :
    ∀ {s : List Char} {k : Nat}, k ≤ (s.takeWhile f).length →
      ∀ c ∈ s.take k, f c = true := by
  intro s
  induction s with
  | nil => intro k hk c hc; simp at hc
  | cons x s' ih =>
    intro k hk c hc
    by_cases hx : f x = true
    · match k with
      | 0 => simp at hc
      | k + 1 =>
        rw [List.takeWhile_cons, if_pos hx] at hk
        simp only [List.take_succ_cons, List.mem_cons] at hc
        rcases hc with rfl | hc'
        · exact hx
        · exact ih (by simpa using hk) c hc'
    · rw [List.takeWhile_cons, if_neg hx] at hk
      simp at hk
      rw [hk] at hc
      simp at hc

theorem mem_gasB3 {s : List Char} {vr : List Char × List Char}
    (h : vr ∈ gasB3 s) :
    ∃ ws ip, vr.1 = ("Group").data ++ ws ++ 'I' :: ip ∧ ws ≠ [] ∧
      ∀ c ∈ ws, isWs c = true := by
  obtain ⟨a, r1, b, ha, hb, hv⟩ := mem_pcat h
  have ha' : a = ("Group").data := mem_pstrAux ha
  obtain ⟨w, rw1, i2, hw, hi2, hb'⟩ := mem_pcat hb
  have hbe : b = w ++ i2 := hb'
  obtain ⟨k, hk1, hk2, hwv⟩ := mem_pRepGE hw
  have hwe : w = List.take k r1 := hwv
  obtain ⟨a2, r2, b2, ha2, _, hi2v⟩ := mem_pcat hi2
  have hie : i2 = a2 ++ b2 := hi2v
  have ha2' : a2 = ("I").data := mem_pstrAux ha2
  refine ⟨w, b2, ?_, ?_, ?_⟩
  · rw [hv, ha', hbe, hie, ha2']
    simp [List.append_assoc]
  · obtain ⟨c, hc, _⟩ := take_head_prop hk1 hk2
    rw [hwe]
    exact List.ne_nil_of_mem hc
  · intro c hc
    rw [hwe] at hc
    exact mem_take_takeWhile hk2 c hc

theorem gasVal_strip_ne {p : P (List Char)} (hpeq : p = gasMarkP ∨ p = gasTextP)
    {s : List Char} {vr : List Char × List Char} (h : vr ∈ p s) :
    stripGroupPfx vr.1 ≠ [] := by
  have halt : (∃ x, vr.1 = 'I' :: x) ∨
      (∃ ws ip, vr.1 = ("Group").data ++ ws ++ 'I' :: ip ∧ ws ≠ [] ∧
        ∀ c ∈ ws, isWs c = true) := by
    rcases hpeq with rfl | rfl
    · obtain ⟨r1, hp⟩ := mem_pBefore h
      rcases mem_palt hp with h1 | h1
      · obtain ⟨x, hx⟩ := mem_gasB1 h1
        exact Or.inl ⟨x, hx⟩
      · obtain ⟨x, hx⟩ := mem_gasB2 h1
        exact Or.inl ⟨x, hx⟩
    · obtain ⟨r1, hp⟩ := mem_pBefore h
      rcases mem_palt hp with h1 | h1
      · obtain ⟨x, hx⟩ := mem_gasB1 h1
        exact Or.inl ⟨x, hx⟩
      · rcases mem_palt h1 with h2 | h2
        · obtain ⟨x, hx⟩ := mem_gasB2 h2
          exact Or.inl ⟨x, hx⟩
        · obtain ⟨ws, ip, hx, hne, hws⟩ := mem_gasB3 h2
          exact Or.inr ⟨ws, ip, hx, hne, hws⟩
  rcases halt with ⟨x, hx⟩ | ⟨ws, ip, hx, hne, hws⟩
  · rw [hx, stripGroupPfx_headI]
    simp
  · rw [hx, stripGroupPfx_group ws ip hws hne]
    simp

/-! ### Per-field non-emptiness -/

theorem data_ne_of_ne {s : String} (h : s ≠ "") : s.data ≠ [] := by
  intro hd
  apply h
  have hs : s = String.mk s.data := by cases s; rfl
  rw [hs, hd]

theorem lookupT_ne {tbl : List (String × String)} {k v : String}
    (h : ∀ kv ∈ tbl, kv.2 ≠ "") (hl : lookupT tbl k = some v) : v ≠ "" := by
  unfold lookupT at hl
  match hf : tbl.find? (fun kv => kv.1 == k) with
  | none => rw [hf] at hl; simp at hl
  | some kv =>
    rw [hf] at hl
    simp only [Option.map_some'] at hl
    injection hl with hl
    rw [← hl]
    exact h kv (List.mem_of_find?_eq_some hf)

theorem cnIec_ne {v : List Char} (h : ∃ c, c ∈ v ∧ isWs c = false) :
    cnIec v ≠ "" := by
  obtain ⟨c, hc, hw⟩ := h
  exact stringMk_ne_empty (trimWs_ne_nil ⟨c, mem_collapseWs hc hw, hw⟩)

theorem cnAtex_ne {v : List Char} (h : ∃ c, c ∈ v ∧ isWs c = false) :
    cnAtex v ≠ "" := by
  obtain ⟨c, hc, hw⟩ := h
  exact stringMk_ne_empty (trimWs_ne_nil ⟨c, mem_stripWs hc hw, hw⟩)

theorem cnUkca_ne {v : List Char} (h : ∃ c, c ∈ v ∧ isWs c = false) :
    cnUkca v ≠ "" := by
  exact stringMk_ne_empty (trimWs_ne_nil h)

theorem certNumber_ne (t : List Char) :
    ∀ s, (certScan t).1 = some s → s ≠ "" := by
  intro s h
  unfold certScan at h
  match hi : scan1 iecexP false t with
  | some v =>
    rw [hi] at h
    injection h with h
    obtain ⟨s', r, hm⟩ := scan1_sound hi
    rw [← h]
    exact cnIec_ne (goodV_iecexP s' (v, r) hm)
  | none =>
    rw [hi] at h
    match ha : scan1 atexP false t with
    | some v =>
      rw [ha] at h
      injection h with h
      obtain ⟨s', r, hm⟩ := scan1_sound ha
      rw [← h]
      exact cnAtex_ne (goodV_atexP s' (v, r) hm)
    | none =>
      rw [ha] at h
      match hu : scan1 ukcaP false t with
      | some v =>
        rw [hu] at h
        injection h with h
        obtain ⟨s', r, hm⟩ := scan1_sound hu
        rw [← h]
        exact cnUkca_ne (goodV_ukcaP s' (v, r) hm)
      | none =>
        rw [hu] at h
        simp at h

theorem certScan_snd_cases (t : List Char) :
    (certScan t).2 = none ∨ (certScan t).2 = some "IECEx" ∨
    (certScan t).2 = some "ATEX" ∨ (certScan t).2 = some "UKCA" := by
  unfold certScan
  cases scan1 iecexP false t with
  | some v => simp
  | none =>
    cases scan1 atexP false t with
    | some v => simp
    | none =>
      cases scan1 ukcaP false t with
      | some v => simp
      | none => simp

theorem certType_ne (t : List Char) :
    ∀ s, certTypeFinal t (certScan t).2 = some s → s ≠ "" := by
  intro s h
  unfold certTypeFinal at h
  split at h
  · injection h with h
    rw [← h]
    decide
  · rcases certScan_snd_cases t with hc | hc | hc | hc <;> rw [hc] at h
    · simp at h
    · injection h with h; rw [← h]; decide
    · injection h with h; rw [← h]; decide
    · injection h with h; rw [← h]; decide

theorem markCands_ne (t : List Char) : ∀ m ∈ markCands t, m ≠ "" := by
  intro m hm
  have h1 : m ∈ (markingPats.flatMap (fun p => scanAll p true t)).map cleanMark :=
    mem_dedupStr hm
  obtain ⟨v, hv, hmk⟩ := List.mem_map.mp h1
  obtain ⟨p, hp, hvp⟩ := List.mem_flatMap.mp hv
  obtain ⟨s', r, hmem⟩ := scanAll_sound hvp
  obtain ⟨c, hc, hw⟩ := goodV_markingPats p hp s' (v, r) hmem
  rw [← hmk]
  unfold cleanMark
  exact stringMk_ne_empty (List.ne_nil_of_mem (mem_collapseWs (mem_trimWs hc hw) hw))

theorem marking_ne (t : List Char) :
    ∀ m, (markingsOf t).head? = some m → m ≠ "" := by
  intro m h
  have h1 : m ∈ markingsOf t := head?_mem h
  exact markCands_ne t m (mem_sortDesc.mp h1)

theorem gasOf_ne (ms t : List Char) :
    (∀ g, (gasOf ms t).1 = some g → g ≠ "") ∧
    (∀ g, (gasOf ms t).2 = some g → g ≠ "") := by
  have hinfo : ∀ kv ∈ GAS_GROUP_INFO, kv.2 ≠ "" := by decide
  unfold gasOf
  match h1 : (scan1 gasMarkP true ms).orElse (fun _ => scan1 gasTextP true t) with
  | none => exact ⟨fun g hg => by simp at hg, fun g hg => by simp at hg⟩
  | some v =>
    have hv : stripGroupPfx v ≠ [] := by
      rcases hor : scan1 gasMarkP true ms with _ | v'
      · rw [hor] at h1
        simp only [Option.orElse] at h1
        obtain ⟨s', r, hm⟩ := scan1_sound h1
        exact gasVal_strip_ne (Or.inr rfl) hm
      · rw [hor] at h1
        simp only [Option.orElse] at h1
        injection h1 with h1
        obtain ⟨s', r, hm⟩ := scan1_sound hor
        rw [← h1]
        exact gasVal_strip_ne (Or.inl rfl) hm
    refine ⟨fun g hg => ?_, fun g hg => ?_⟩
    · injection hg with hg
      rw [← hg]
      exact stringMk_ne_empty hv
    · exact lookupT_ne hinfo hg

theorem tempOf_ne (ms t : List Char) :
    (∀ g, (tempOf ms t).1 = some g → g ≠ "") ∧
    (∀ g, (tempOf ms t).2 = some g → g ≠ "") := by
  have hinfo : ∀ kv ∈ TEMP_CLASS_INFO, kv.2 ≠ "" := by decide
  unfold tempOf
  match h1 : (scan1 tempP true ms).orElse (fun _ => scan1 tempP true t) with
  | none => exact ⟨fun g hg => by simp at hg, fun g hg => by simp at hg⟩
  | some d =>
    refine ⟨fun g hg => ?_, fun g hg => ?_⟩
    · injection hg with hg
      rw [← hg]
      exact append_ne_empty_left _ (by decide)
    · exact lookupT_ne hinfo hg

theorem eplOf_ne (ms t : List Char) : ∀ g, eplOf ms t = some g → g ≠ "" := by
  intro g hg
  unfold eplOf at hg
  rcases hor : scan1 eplP true ms with _ | v
  · rw [hor] at hg
    simp only [Option.orElse] at hg
    match h2 : scan1 eplP true t with
    | none => rw [h2] at hg; simp at hg
    | some v =>
      rw [h2] at hg
      simp only [Option.map_some'] at hg
      injection hg with hg
      obtain ⟨s', r, hm⟩ := scan1_sound h2
      rw [← hg]
      exact stringMk_ne_empty (nonNilV_eplP s' (v, r) hm)
  · rw [hor] at hg
    simp only [Option.orElse, Option.map_some'] at hg
    injection hg with hg
    obtain ⟨s', r, hm⟩ := scan1_sound hor
    rw [← hg]
    exact stringMk_ne_empty (nonNilV_eplP s' (v, r) hm)

theorem zoneOf_ne (t : List Char) (epl : Option String) :
    ∀ g, zoneOf t epl = some g → g ≠ "" := by
  intro g hg
  unfold zoneOf at hg
  split at hg
  · injection hg with hg
    rw [← hg]
    exact append_ne_empty_left _ (by decide)
  · split at hg
    · rename_i e
      match hz : eplZoneMap e with
      | none => rw [hz] at hg; simp at hg
      | some z =>
        rw [hz] at hg
        simp only [Option.map_some'] at hg
        injection hg with hg
        rw [← hg]
        apply append_ne_empty_left
        rw [data_append]
        intro he
        exact absurd (List.append_eq_nil.mp he).1 (by decide)
    · simp at hg

theorem ipOf_ne (t : List Char) : ∀ g, ipOf t = some g → g ≠ "" := by
  intro g hg
  unfold ipOf at hg
  match h1 : scan1 ipP true t with
  | none => rw [h1] at hg; simp at hg
  | some v =>
    rw [h1] at hg
    simp only [Option.map_some'] at hg
    injection hg with hg
    rw [← hg]
    exact append_ne_empty_left _ (by decide)

theorem ambOf_ne (t : List Char) : ∀ g, ambOf t = some g → g ≠ "" := by
  intro g hg
  unfold ambOf at hg
  match h1 : scan1 ambP false t with
  | none => rw [h1] at hg; simp at hg
  | some vp =>
    rw [h1] at hg
    simp only [Option.map_some'] at hg
    injection hg with hg
    rw [← hg]
    apply ne_empty_of_data
    intro he
    simp only [data_append, List.append_eq_nil] at he
    exact absurd he.1.1.2 (by decide)

theorem valCheck_ne {deny : P (List Char)} {val : List Char} {v : String}
    (h : valCheck deny val = some v) : v ≠ "" := by
  unfold valCheck at h
  split at h
  · simp at h
  · split at h
    · simp at h
    · rename_i h3
      injection h with h
      rw [← h]
      apply stringMk_ne_empty
      intro he
      rw [he] at h3
      simp at h3

theorem mfrValidate_ne : ∀ cap v, mfrValidate cap = some v → v ≠ "" :=
  fun _ _ h => valCheck_ne h

theorem eqValidate_ne : ∀ cap v, eqValidate cap = some v → v ≠ "" :=
  fun _ _ h => valCheck_ne h

theorem firstField_ne (pats : List (P (List Char)))
    (validate : List Char → Option String)
    (hval : ∀ cap v, validate cap = some v → v ≠ "") :
    ∀ t v, firstField pats validate t = some v → v ≠ "" := by
  induction pats with
  | nil =>
    intro t v h
    rw [firstField] at h
    simp at h
  | cons p rest ih =>
    intro t v h
    rw [firstField] at h
    split at h
    · rename_i cap hcap
      split at h
      · rename_i v' hv'
        injection h with h
        rw [← h]
        exact hval cap v' hv'
      · exact ih t v h
    · exact ih t v h

theorem bodyOf_ne (t : List Char) : ∀ b, bodyOf t = some b → b ≠ "" := by
  intro b h
  have hb : b ∈ sortDesc CERT_BODIES := List.mem_of_find?_eq_some h
  have hb' : b ∈ CERT_BODIES := mem_sortDesc.mp hb
  have hall : ∀ x ∈ CERT_BODIES, x ≠ "" := by decide
  exact hall b hb'

theorem firstDate_ne (pats : List (P (List Char))) (hg : ∀ p ∈ pats, GoodV p) :
    ∀ t v, firstDate pats t = some v → v ≠ "" := by
  induction pats with
  | nil =>
    intro t v h
    rw [firstDate] at h
    simp at h
  | cons p rest ih =>
    intro t v h
    rw [firstDate] at h
    split at h
    · rename_i cap hcap
      injection h with h
      obtain ⟨s', r, hm⟩ := scan1_sound hcap
      obtain ⟨c, hc, hw⟩ := hg p (List.mem_cons_self _ _) s' (cap, r) hm
      rw [← h]
      exact stringMk_ne_empty (trimWs_ne_nil ⟨c, hc, hw⟩)
    · exact ih (fun q hq => hg q (List.mem_cons_of_mem _ hq)) t v h

theorem dedupStr_cons (x : String) (l : List String) :
    dedupStr (x :: l) = x :: dedupStrF l.length (l.filter (· != x)) := rfl

theorem joinSep_cons_ne (sep : String) (x : String) (l : List String)
    (hx : x ≠ "") : joinSep sep (x :: l) ≠ "" := by
  match l with
  | [] => exact hx
  | y :: r =>
    rw [joinSep]
    apply ne_empty_of_data
    intro he
    simp only [data_append, List.append_eq_nil] at he
    exact absurd he.1.1 (data_ne_of_ne hx)

theorem stdOf_ne (t : List Char) : ∀ v, stdOf t = some v → v ≠ "" := by
  intro v h
  unfold stdOf at h
  match hms : scanAll stdP false t with
  | [] => rw [hms] at h; simp at h
  | m :: ms' =>
    rw [hms] at h
    injection h with h
    rw [← h]
    have hm0 : String.mk (trimWs m) ≠ "" := by
      have hmem : m ∈ scanAll stdP false t := by
        rw [hms]
        exact List.mem_cons_self _ _
      obtain ⟨s', r, hmm⟩ := scanAll_sound hmem
      obtain ⟨c, hc, hw⟩ := goodV_stdP s' (m, r) hmm
      exact stringMk_ne_empty (trimWs_ne_nil ⟨c, hc, hw⟩)
    rw [List.map_cons, dedupStr_cons]
    exact joinSep_cons_ne _ _ _ hm0

theorem catOf_ne (t : List Char) : ∀ v, catOf t = some v → v ≠ "" := by
  intro v h
  unfold catOf at h
  rcases hor : scan1 catP1 true t with _ | w
  · rw [hor] at h
    simp only [Option.orElse] at h
    match h2 : scan1 catP2 true t with
    | none => rw [h2] at h; simp at h
    | some w =>
      rw [h2] at h
      simp only [Option.map_some'] at h
      injection h with h
      obtain ⟨s', r, hm⟩ := scan1_sound h2
      rw [← h]
      exact stringMk_ne_empty (nonNilV_catP2 s' (w, r) hm)
  · rw [hor] at h
    simp only [Option.orElse, Option.map_some'] at h
    injection h with h
    obtain ⟨s', r, hm⟩ := scan1_sound hor
    rw [← h]
    exact stringMk_ne_empty (nonNilV_catP1 s' (w, r) hm)

theorem grpOf_ne (t : List Char) : ∀ v, grpOf t = some v → v ≠ "" := by
  intro v h
  unfold grpOf at h
  split at h
  · rename_i w hw
    injection h with h
    obtain ⟨s', r, hm⟩ := scan1_sound hw
    rw [← h]
    exact stringMk_ne_empty (nonNilV_grpP s' (w, r) hm)
  · match h2 : scan1 grpAltP true t with
    | none => rw [h2] at h; simp at h
    | some w =>
      rw [h2] at h
      simp only [Option.map_some'] at h
      injection h with h
      obtain ⟨s', r, hm⟩ := scan1_sound h2
      rw [← h]
      exact stringMk_ne_empty (nonNilV_grpAltP s' (w, r) hm)

/-! ### The claims -/

/-- C7: for every record (any value of the record type), `confidence` is an
integer with 0 ≤ confidence ≤ 100. -/
theorem claim7_thm : ∀ r : CertRecord, 0 ≤ confidence r ∧ confidence r ≤ 100 :=
  fun _ => ⟨Nat.zero_le _, Nat.min_le_left _ _⟩

/-- C8 counterexample: on a text whose special-conditions block is all
whitespace, `parse` stores the empty string rather than leaving the field
absent, so the claim as stated is false. -/
theorem claim8_cex :
    (parse "Special conditions:          ").specialConditions = some "" := by
  decide

set_option maxHeartbeats 1000000 in
/-- C8 (amended): every field of the record other than `raw`, `markings`,
`protectionTypes` and `specialConditions` is either absent or a non-empty
string; `specialConditions` alone can be stored as the empty string, when
the captured block trims to nothing. -/
theorem claim8_thm : ∀ t : String,
    NonEmptyOpt (parse t).certNumber ∧ NonEmptyOpt (parse t).certType ∧
    NonEmptyOpt (parse t).marking ∧ NonEmptyOpt (parse t).gasGroup ∧
    NonEmptyOpt (parse t).gasGroupInfo ∧ NonEmptyOpt (parse t).tempClass ∧
    NonEmptyOpt (parse t).tempClassMax ∧ NonEmptyOpt (parse t).epl ∧
    NonEmptyOpt (parse t).zone ∧ NonEmptyOpt (parse t).ipRating ∧
    NonEmptyOpt (parse t).ambientTemp ∧ NonEmptyOpt (parse t).manufacturer ∧
    NonEmptyOpt (parse t).equipment ∧ NonEmptyOpt (parse t).notifiedBody ∧
    NonEmptyOpt (parse t).issueDate ∧ NonEmptyOpt (parse t).expiryDate ∧
    NonEmptyOpt (parse t).standard ∧ NonEmptyOpt (parse t).category ∧
    NonEmptyOpt (parse t).group := by
  intro t
  simp only [parse, parseC]
  exact ⟨fun s h => certNumber_ne t.data s h,
    fun s h => certType_ne t.data s h,
    fun s h => marking_ne t.data s h,
    fun s h => (gasOf_ne ((((markingsOf t.data).head?).getD "").data) t.data).1 s h,
    fun s h => (gasOf_ne ((((markingsOf t.data).head?).getD "").data) t.data).2 s h,
    fun s h => (tempOf_ne ((((markingsOf t.data).head?).getD "").data) t.data).1 s h,
    fun s h => (tempOf_ne ((((markingsOf t.data).head?).getD "").data) t.data).2 s h,
    fun s h => eplOf_ne ((((markingsOf t.data).head?).getD "").data) t.data s h,
    fun s h => zoneOf_ne t.data
      (eplOf ((((markingsOf t.data).head?).getD "").data) t.data) s h,
    fun s h => ipOf_ne t.data s h,
    fun s h => ambOf_ne t.data s h,
    fun s h => firstField_ne mfrPats mfrValidate mfrValidate_ne t.data s h,
    fun s h => firstField_ne eqPats eqValidate eqValidate_ne t.data s h,
    fun s h => bodyOf_ne t.data s h,
    fun s h => firstDate_ne issuePats goodV_issuePats t.data s h,
    fun s h => firstDate_ne expiryPats goodV_expiryPats t.data s h,
    fun s h => stdOf_ne t.data s h,
    fun s h => catOf_ne t.data s h,
    fun s h => grpOf_ne t.data s h⟩

/-- Witness for C8 (amended), at a concrete input whose zone is present. -/
theorem claim8_witness : ("Zone 4" : String) ≠ "" :=
  (claim8_thm "Zone 4").2.2.2.2.2.2.2.2.1 "Zone 4" (by decide)

/-- C9: `parse` is total; on empty or garbled input it still returns a
record carrying the raw text, with every extracted field absent. -/
theorem claim9_thm :
    (∀ t : String, (parse t).raw = t) ∧
    parse "" =
      { certNumber := none, certType := none, marking := none,
        markings := [], protectionTypes := [], gasGroup := none,
        gasGroupInfo := none, tempClass := none, tempClassMax := none,
        epl := none, zone := none, ipRating := none, ambientTemp := none,
        manufacturer := none, equipment := none, notifiedBody := none,
        issueDate := none, expiryDate := none, specialConditions := none,
        standard := none, category := none, group := none, raw := "" } ∧
    parse "@#!%" =
      { certNumber := none, certType := none, marking := none,
        markings := [], protectionTypes := [], gasGroup := none,
        gasGroupInfo := none, tempClass := none, tempClassMax := none,
        epl := none, zone := none, ipRating := none, ambientTemp := none,
        manufacturer := none, equipment := none, notifiedBody := none,
        issueDate := none, expiryDate := none, specialConditions := none,
        standard := none, category := none, group := none, raw := "@#!%" } := by
  refine ⟨fun t => ?_, by decide, by decide⟩
  show String.mk t.data = t
  cases t
  rfl

/-- C10: a certificate number is reported exactly when a certificate type
is. -/
theorem claim10_thm : ∀ t : String,
    (parse t).certNumber = none ↔ (parse t).certType = none := by
  intro t
  show (certScan t.data).1 = none ↔ certTypeFinal t.data (certScan t.data).2 = none
  unfold certScan
  cases scan1 iecexP false t.data with
  | some v =>
    constructor
    · intro h
      simp at h
    · intro h
      unfold certTypeFinal at h
      split at h <;> simp at h
  | none =>
    cases scan1 atexP false t.data with
    | some v =>
      constructor
      · intro h
        simp at h
      · intro h
        unfold certTypeFinal at h
        split at h <;> simp at h
    | none =>
      cases scan1 ukcaP false t.data with
      | some v =>
        constructor
        · intro h
          simp at h
        · intro h
          unfold certTypeFinal at h
          split at h <;> simp at h
      | none =>
        simp [certTypeFinal]

/-- Witness for C10, at the empty input. -/
theorem claim10_witness : (parse "").certType = none :=
  (claim10_thm "").mp (by decide)

/-- C1: for every input text, `markings` is the deduplicated,
whitespace-normalized candidate set sorted by descending length (stable),
`marking` is its first element and no candidate is longer; concretely, on a
text containing both "Ex d IIC" and "Ex db IIC T4 Gb" the longer string is
selected and both appear in `markings`, longer first. -/
theorem claim1_thm :
    (∀ t : String,
      (parse t).markings = sortDesc (markCands t.data) ∧
      List.Pairwise (fun u v => v.length ≤ u.length) (parse t).markings ∧
      (parse t).marking = (parse t).markings.head? ∧
      (∀ m, (parse t).marking = some m →
        ∀ c ∈ markCands t.data, c.length ≤ m.length)) ∧
    (parse "Ex d IIC Ex db IIC T4 Gb").marking = some "Ex db IIC T4 Gb" ∧
    (parse "Ex d IIC Ex db IIC T4 Gb").markings =
      ["Ex db IIC T4 Gb", "Ex db IIC T4", "Ex db IIC", "Ex d IIC"] := by
  refine ⟨fun t => ⟨rfl, pairwise_sortDesc (markCands t.data), rfl,
    fun m hm c hc => sortDesc_head_max hm c hc⟩, by decide, by decide⟩

/-- Witness for C1, instantiating the length-maximality part at the
concrete example. -/
theorem claim1_witness : ("Ex d IIC" : String).length ≤
    ("Ex db IIC T4 Gb" : String).length :=
  ((claim1_thm.1 "Ex d IIC Ex db IIC T4 Gb").2.2.2 "Ex db IIC T4 Gb"
    (by decide)) "Ex d IIC" (by decide)

/-- C2: `protectionTypes` is computed from the selected `marking` alone:
equal markings give equal protection types, and an absent marking gives the
empty decomposition. -/
theorem claim2_thm :
    (∀ t1 t2 : String, (parse t1).marking = (parse t2).marking →
      (parse t1).protectionTypes = (parse t2).protectionTypes) ∧
    (∀ t : String, (parse t).protectionTypes = protTypesOf (parse t).marking) ∧
    (∀ t : String, (parse t).marking = none → (parse t).protectionTypes = []) := by
  have key : ∀ t : String, (parse t).protectionTypes = protTypesOf (parse t).marking :=
    fun t => by simp only [parse, parseC]
  refine ⟨fun t1 t2 h => ?_, key, fun t h => ?_⟩
  · rw [key, key, h]
  · rw [key, h]
    decide

/-- Witness for C2, at two texts that present the same marking with
different surrounding whitespace. -/
theorem claim2_witness :
    (parse "Ex ia IIB T6 Gc").protectionTypes =
      (parse " Ex ia IIB T6 Gc ").protectionTypes :=
  claim2_thm.1 "Ex ia IIB T6 Gc" " Ex ia IIB T6 Gc " (by decide)

/-- C3 counterexample: the text contains both "DNV GL" and its substring
"DNV", yet `parse` reports neither: "Bureau Veritas", a third and longer
known body, wins, so the claim that the longer of the pair is reported is
false. -/
theorem claim3_cex :
    ("DNV" : String) ∈ CERT_BODIES ∧ ("DNV GL" : String) ∈ CERT_BODIES ∧
    containsStr "Bureau Veritas DNV GL".data "DNV GL".data = true ∧
    containsStr "Bureau Veritas DNV GL".data "DNV".data = true ∧
    containsStr "DNV GL".data "DNV".data = true ∧
    (parse "Bureau Veritas DNV GL").notifiedBody = some "Bureau Veritas" ∧
    ¬ (parse "Bureau Veritas DNV GL").notifiedBody = some "DNV GL" := by
  have h : (parse "Bureau Veritas DNV GL").notifiedBody = some "Bureau Veritas" := by
    decide
  exact ⟨by decide, by decide, by decide, by decide, by decide, h,
    by rw [h]; decide⟩

/-- C3 (amended): the notified-body scan goes longest-name-first, so the
reported body is a known name contained in the text of maximal length among
all contained known names; in particular the shorter of a substring pair is
never reported, though the longer of the pair can itself lose to a third,
longer contained name. -/
theorem claim3_thm :
    ∀ (t b : String), (parse t).notifiedBody = some b →
      b ∈ CERT_BODIES ∧ containsStr t.data b.data = true ∧
      ∀ b' ∈ CERT_BODIES, containsStr t.data b'.data = true →
        b'.length ≤ b.length := by
  intro t b h
  have h' : (sortDesc CERT_BODIES).find? (fun x => containsStr t.data x.data)
      = some b := h
  have hpb := find?_pred h'
  refine ⟨mem_sortDesc.mp (List.mem_of_find?_eq_some h'), hpb, ?_⟩
  intro b' hb' hc
  exact find?_sorted_max (pairwise_sortDesc CERT_BODIES) h' b'
    (mem_sortDesc.mpr hb') hc

/-- Witness for C3 (amended) at a text containing exactly one known body. -/
theorem claim3_witness :
    ("DEKRA" : String) ∈ CERT_BODIES ∧
    containsStr "DEKRA test".data "DEKRA".data = true ∧
    ∀ b' ∈ CERT_BODIES, containsStr "DEKRA test".data b'.data = true →
      b'.length ≤ ("DEKRA" : String).length :=
  claim3_thm "DEKRA test" "DEKRA" (by decide)

/-- C4: an explicit "Zone n" match sets `zone` without any derived-marker
suffix; only when no explicit zone matches is `zone` derived by mapping
`epl` through the EPL-to-zone table with the suffix appended; concretely,
"Ex db IIC T4 Gb" has epl "Gb", no Zone token, and zone
"Zone 1 (derived from EPL)". -/
theorem claim4_thm :
    (∀ (t : String) (d : List Char), scan1 zoneP false t.data = some d →
      (parse t).zone = some ("Zone " ++ String.mk d)) ∧
    (∀ t : String, scan1 zoneP false t.data = none →
      (parse t).zone = ((parse t).epl.bind eplZoneMap).map
        (fun z => "Zone " ++ z ++ " (derived from EPL)")) ∧
    scan1 zoneP false "Ex db IIC T4 Gb".data = none ∧
    (parse "Ex db IIC T4 Gb").epl = some "Gb" ∧
    (parse "Ex db IIC T4 Gb").zone = some "Zone 1 (derived from EPL)" := by
  have key : ∀ t : String, (parse t).zone = zoneOf t.data (parse t).epl :=
    fun t => by simp only [parse, parseC]
  refine ⟨fun t d h => ?_, fun t h => ?_, by decide, by decide, by decide⟩
  · rw [key]
    unfold zoneOf
    rw [h]
  · rw [key]
    unfold zoneOf
    rw [h]
    cases hepl : (parse t).epl with
    | none => rfl
    | some e => rfl

/-- Witness for C4, at a text with an explicit zone token. -/
theorem claim4_witness :
    (parse "Zone 2 hazard area").zone = some ("Zone " ++ String.mk ['2']) :=
  claim4_thm.1 "Zone 2 hazard area" ['2'] (by decide)

/-- C5 counterexample: on the scenario text the manufacturer capture runs
to the end of the line, so `manufacturer` is "Acme Corp  Zone 1", not
"Acme Corp". -/
theorem claim5_cex :
    (parse "IECEx ABC 12.0001X  Ex db IIC T4 Gb  Manufacturer: Acme Corp  Zone 1").manufacturer
      = some "Acme Corp  Zone 1" ∧
    ¬ (parse "IECEx ABC 12.0001X  Ex db IIC T4 Gb  Manufacturer: Acme Corp  Zone 1").manufacturer
      = some "Acme Corp" := by
  have h : (parse "IECEx ABC 12.0001X  Ex db IIC T4 Gb  Manufacturer: Acme Corp  Zone 1").manufacturer
      = some "Acme Corp  Zone 1" := by decide
  exact ⟨h, by rw [h]; decide⟩

/-- C5 (amended): the scenario parse is exactly as claimed except that
`manufacturer` is "Acme Corp  Zone 1" (the label capture takes the rest of
the line); confidence is 80, which is at least 70. -/
theorem claim5_thm :
    parse "IECEx ABC 12.0001X  Ex db IIC T4 Gb  Manufacturer: Acme Corp  Zone 1" =
      { certNumber := some "IECEx ABC 12.0001X"
        certType := some "IECEx"
        marking := some "Ex db IIC T4 Gb"
        markings := ["Ex db IIC T4 Gb", "Ex db IIC T4", "Ex db IIC"]
        protectionTypes := [{ code := "db", baseType := "d", level := some "b",
                              description := "Flameproof enclosure" }]
        gasGroup := some "IIC"
        gasGroupInfo := some "Hydrogen, acetylene (most stringent)"
        tempClass := some "T4"
        tempClassMax := some "135°C"
        epl := some "Gb"
        zone := some "Zone 1"
        ipRating := none
        ambientTemp := none
        manufacturer := some "Acme Corp  Zone 1"
        equipment := none
        notifiedBody := none
        issueDate := none
        expiryDate := none
        specialConditions := none
        standard := none
        category := none
        group := none
        raw := "IECEx ABC 12.0001X  Ex db IIC T4 Gb  Manufacturer: Acme Corp  Zone 1" } ∧
    confidence (parse "IECEx ABC 12.0001X  Ex db IIC T4 Gb  Manufacturer: Acme Corp  Zone 1") = 80 ∧
    70 ≤ confidence (parse "IECEx ABC 12.0001X  Ex db IIC T4 Gb  Manufacturer: Acme Corp  Zone 1") := by
  have h : parse "IECEx ABC 12.0001X  Ex db IIC T4 Gb  Manufacturer: Acme Corp  Zone 1" =
      { certNumber := some "IECEx ABC 12.0001X"
        certType := some "IECEx"
        marking := some "Ex db IIC T4 Gb"
        markings := ["Ex db IIC T4 Gb", "Ex db IIC T4", "Ex db IIC"]
        protectionTypes := [{ code := "db", baseType := "d", level := some "b",
                              description := "Flameproof enclosure" }]
        gasGroup := some "IIC"
        gasGroupInfo := some "Hydrogen, acetylene (most stringent)"
        tempClass := some "T4"
        tempClassMax := some "135°C"
        epl := some "Gb"
        zone := some "Zone 1"
        ipRating := none
        ambientTemp := none
        manufacturer := some "Acme Corp  Zone 1"
        equipment := none
        notifiedBody := none
        issueDate := none
        expiryDate := none
        specialConditions := none
        standard := none
        category := none
        group := none
        raw := "IECEx ABC 12.0001X  Ex db IIC T4 Gb  Manufacturer: Acme Corp  Zone 1" } := by
    decide
  refine ⟨h, ?_, ?_⟩
  · rw [h]
    decide
  · rw [h]
    decide

/-- C6: the certificate-number extractor tries the IECEx, ATEX, UKCA
patterns in that order; the first match fixes both fields; an IECEx result
with an embedded ATEX-shaped substring upgrades the type to
"IECEx + ATEX" while the number is unchanged. -/
theorem claim6_thm :
    (∀ (t : String) (v : List Char), scan1 iecexP false t.data = some v →
      (parse t).certNumber = some (cnIec v) ∧
      (parse t).certType = some (if (scan1 atexAlsoP false t.data).isSome = true
        then "IECEx + ATEX" else "IECEx")) ∧
    (∀ (t : String) (v : List Char), scan1 iecexP false t.data = none →
      scan1 atexP false t.data = some v →
      (parse t).certNumber = some (cnAtex v) ∧ (parse t).certType = some "ATEX") ∧
    (∀ (t : String) (v : List Char), scan1 iecexP false t.data = none →
      scan1 atexP false t.data = none → scan1 ukcaP false t.data = some v →
      (parse t).certNumber = some (cnUkca v) ∧ (parse t).certType = some "UKCA") ∧
    (∀ t : String, scan1 iecexP false t.data = none →
      scan1 atexP false t.data = none → scan1 ukcaP false t.data = none →
      (parse t).certNumber = none ∧ (parse t).certType = none) := by
  have keyN : ∀ t : String, (parse t).certNumber = (certScan t.data).1 :=
    fun t => rfl
  have keyT : ∀ t : String,
      (parse t).certType = certTypeFinal t.data (certScan t.data).2 :=
    fun t => rfl
  refine ⟨fun t v h => ⟨?_, ?_⟩, fun t v h1 h2 => ⟨?_, ?_⟩,
    fun t v h1 h2 h3 => ⟨?_, ?_⟩, fun t h1 h2 h3 => ⟨?_, ?_⟩⟩
  · rw [keyN]
    unfold certScan
    rw [h]
  · rw [keyT]
    unfold certScan
    rw [h]
    unfold certTypeFinal
    by_cases hA : (scan1 atexAlsoP false t.data).isSome = true
    · simp [hA]
    · simp [hA]
  · rw [keyN]
    unfold certScan
    rw [h1, h2]
  · rw [keyT]
    unfold certScan
    rw [h1, h2]
    simp [certTypeFinal]
  · rw [keyN]
    unfold certScan
    rw [h1, h2, h3]
  · rw [keyT]
    unfold certScan
    rw [h1, h2, h3]
    simp [certTypeFinal]
  · rw [keyN]
    unfold certScan
    rw [h1, h2, h3]
  · rw [keyT]
    unfold certScan
    rw [h1, h2, h3]
    simp [certTypeFinal]

/-- Witness for C6, at a dual-certification text. -/
theorem claim6_witness :
    (parse "IECEx ABC 12.0001X plus 12 ATEX 0123").certNumber
      = some "IECEx ABC 12.0001X" ∧
    (parse "IECEx ABC 12.0001X plus 12 ATEX 0123").certType
      = some "IECEx + ATEX" := by
  have h := claim6_thm.1 "IECEx ABC 12.0001X plus 12 ATEX 0123"
    "IECEx ABC 12.0001X".data (by decide)
  have h1 : cnIec "IECEx ABC 12.0001X".data = "IECEx ABC 12.0001X" := by decide
  have h2 : (scan1 atexAlsoP false
      "IECEx ABC 12.0001X plus 12 ATEX 0123".data).isSome = true := by decide
  refine ⟨?_, ?_⟩
  · rw [h.1, h1]
  · rw [h.2, if_pos h2]

end ExParser
